import Mathlib

/-!
# Path tree (`path-tree.c`): a shallow embedding

The C code works on `char *` strings, on `struct node` values and on a
`struct path_tree`.  The embedding keeps the C names.

Memory model.  A non-null `char *` is a `cptr`: the bytes of the object it
points into together with the offset of the pointer inside that object.  A
byte is `some b` when it holds the value `b` and `none` when it is
indeterminate (fresh `malloc` storage).  Dereferencing outside the object,
branching on an indeterminate byte and arithmetic on a null pointer are
undefined behaviour in C; the embedding reports them as a `fault`.  Writes
through a pointer return the pointer with its object updated (explicit state
passing).  Two pointers handed to a function are taken to point into distinct
objects; for `mem_cpy` and `str_cpy`, whose result depends on it, the case of
two pointers into one object is embedded as well, as `mem_cpy_in` and
`str_cpy_in`.

Machine integers.  `int` is 32 bits wide and `size_t` 64 bits wide; the two
conversions the code performs (`ptrdiff_t` to `int` in `str_len`, `int` to
`size_t` at the calls of `malloc` and `str_cpy`) wrap explicitly.
-/

/-!
# Byte codecs (`varela.c`)

The functions `u16_to_bytes`, `u16_from_bytes`, `u32_to_bytes` and
`u32_from_bytes` write and read an array of `u8`.  The array is a list of
bytes; a function that writes returns the array after its writes, and an
access beyond the end of the array yields `none`.  The fixed-width types
`u8`, `u16` and `u32` are natural numbers reduced modulo `2 ^ 8`, `2 ^ 16`
and `2 ^ 32` at every conversion the code performs.
-/

namespace Varela

/-- Conversion to `u8`. -/
def to_u8 (x : Nat) : Nat := x % 2 ^ 8

/-- Conversion to `u16`. -/
def to_u16 (x : Nat) : Nat := x % 2 ^ 16

/-- Conversion to `u32`. -/
def to_u32 (x : Nat) : Nat := x % 2 ^ 32

/-- The function `u16_to_bytes`: the array after the two writes; `none` when
the array has fewer than two bytes. -/
def u16_to_bytes (num : Nat) (array : List Nat) : Option (List Nat) :=
  if 2 ≤ array.length then
    some ((array.set 0 (to_u8 (num >>> 0))).set 1 (to_u8 (num >>> 8)))
  else none

/-- The function `u16_from_bytes`: the value stored into `*num`; `none` when
the array has fewer than two bytes. -/
def u16_from_bytes (array : List Nat) : Option Nat :=
  match array[0]?, array[1]? with
  | some a0, some a1 => some (to_u16 ((to_u16 a0 <<< 0) ||| (to_u16 a1 <<< 8)))
  | _, _ => none

/-- The function `u32_to_bytes`: the array after the four writes; `none` when
the array has fewer than four bytes. -/
def u32_to_bytes (num : Nat) (array : List Nat) : Option (List Nat) :=
  if 4 ≤ array.length then
    some ((((array.set 0 (to_u8 (num >>> 0))).set 1 (to_u8 (num >>> 8))).set 2
      (to_u8 (num >>> 16))).set 3 (to_u8 (num >>> 24)))
  else none

/-- The function `u32_from_bytes`: the value stored into `*num`; `none` when
the array has fewer than four bytes. -/
def u32_from_bytes (array : List Nat) : Option Nat :=
  match array[0]?, array[1]?, array[2]?, array[3]? with
  | some a0, some a1, some a2, some a3 =>
    some (to_u32 (to_u32 (to_u32 a0 <<< 0) ||| to_u32 (to_u32 a1 <<< 8) |||
      to_u32 (to_u32 a2 <<< 16) ||| to_u32 (to_u32 a3 <<< 24)))
  | _, _, _, _ => none

end Varela

namespace PathTree

/-! ## Memory -/

/-- Undefined behaviour reached by the C code. -/
inductive fault where
  | oob
  | undef
  | null
deriving DecidableEq, Repr

deriving instance DecidableEq for Except

/-- Non-null character pointer: the object pointed into and the offset. -/
structure cptr where
  obj : List (Option Nat)
  off : Int
deriving DecidableEq, Repr

/-- Character pointer `char *`; `none` is `NULL`. -/
abbrev cstr := Option cptr

/-- Bytes of a text, without terminator. -/
def text (s : String) : List Nat :=
  s.data.map Char.toNat

/-- Pointer to the start of an object holding the bytes `a` followed by the
terminator. -/
def cstr_of (a : List Nat) : cstr :=
  some ⟨a.map some ++ [some 0], 0⟩

/-- Memory image of a string literal: its bytes followed by the terminator. -/
def lit (s : String) : cstr :=
  cstr_of (text s)

/-- Byte read `p[i]` used only to be copied: an indeterminate byte may be read. -/
def load_raw (p : cptr) (i : Int) : Except fault (Option Nat) :=
  if p.off + i < 0 then .error .oob
  else
    match p.obj.get? (p.off + i).toNat with
    | none => .error .oob
    | some b => .ok b

/-- Byte read `p[i]` whose value is inspected. -/
def load (p : cptr) (i : Int) : Except fault Nat :=
  match load_raw p i with
  | .error e => .error e
  | .ok none => .error .undef
  | .ok (some b) => .ok b

/-- Byte write `p[i] = v`; the result is `p` with its object updated. -/
def store (p : cptr) (i : Int) (v : Option Nat) : Except fault cptr :=
  if p.off + i < 0 then .error .oob
  else if (p.off + i).toNat < p.obj.length then
    .ok ⟨p.obj.set (p.off + i).toNat v, p.off⟩
  else .error .oob

/-- Pointer arithmetic `p + k`. -/
def ptr_add (p : cstr) (k : Int) : Except fault cstr :=
  match p with
  | none => .error .null
  | some q => .ok (some ⟨q.obj, q.off + k⟩)

/-! ## Machine integers -/

/-- Width of `int`. -/
def INT_BITS : Nat := 32

/-- Width of `size_t`. -/
def SIZE_BITS : Nat := 64

/-- Conversion of a mathematical integer to `int`, wrapping. -/
def to_int (x : Int) : Int :=
  (x + 2 ^ (INT_BITS - 1)) % 2 ^ INT_BITS - 2 ^ (INT_BITS - 1)

/-- Conversion of an `int` to `size_t`, wrapping. -/
def to_size_t (x : Int) : Nat :=
  (x % 2 ^ SIZE_BITS).toNat

/-- Truth values: `typedef int bool`. -/
abbrev bool := Int

/-- The macro `TRUE`. -/
def TRUE : bool := 1

/-- The macro `FALSE`. -/
def FALSE : bool := 0

/-- The macro `MIN`. -/
def MIN (x y : Int) : Int := if x < y then x else y

/-! ## String helpers -/

/-- Loop of `mem_cpy`: `while (len--) *d++ = *s++`, at index `i`. -/
def mem_cpy_loop (d s : cptr) (i : Nat) : Nat → Except fault cptr
  | 0 => .ok d
  | len + 1 => do
    let b ← load_raw s i
    let d1 ← store d i b
    mem_cpy_loop d1 s (i + 1) len

/-- The function `mem_cpy`; the result is `dest` with its object updated. -/
def mem_cpy (dest src : cptr) (len : Nat) : Except fault cptr :=
  mem_cpy_loop dest src 0 len

/-- Loop of `mem_set`: `while (n--) *p++ = (unsigned char) c`, at index `i`. -/
def mem_set_loop (s : cptr) (c : Nat) (i : Nat) : Nat → Except fault cptr
  | 0 => .ok s
  | n + 1 => do
    let s1 ← store s i (some (c % 256))
    mem_set_loop s1 c (i + 1) n

/-- The function `mem_set`; the result is `s` with its object updated. -/
def mem_set (s : cptr) (c : Nat) (n : Nat) : Except fault cptr :=
  mem_set_loop s c 0 n

/-- Loop of `str_len`: `while (*ptr) ++ptr`, over the bytes from `ptr` on,
with `k` bytes already passed. -/
def str_len_loop : List (Option Nat) → Nat → Except fault Nat
  | [], _ => .error .oob
  | none :: _, _ => .error .undef
  | some b :: rest, k => if b = 0 then .ok k else str_len_loop rest (k + 1)

/-- The function `str_len`. -/
def str_len (str : cstr) : Except fault Int :=
  match str with
  | none => .ok 0
  | some s =>
    if s.off < 0 then .error .oob
    else
      match str_len_loop (s.obj.drop s.off.toNat) 0 with
      | .error e => .error e
      | .ok k => .ok (to_int k)

/-- Result of `str_cpy`: the returned pointer and the state of `dest`. -/
structure str_cpy_result where
  ret : cstr
  dest : cstr
deriving DecidableEq, Repr

/-- The function `str_cpy`, for `dest` and `src` that are missing or point
into distinct objects. -/
def str_cpy (dest src : cstr) (len : Nat) : Except fault str_cpy_result :=
  match dest, src with
  | some d, some s =>
    if len = 0 then .ok ⟨some d, some d⟩
    else do
      let d1 ← mem_set d 0 ((len + 1) % 2 ^ SIZE_BITS)
      let d2 ← mem_cpy d1 s len
      .ok ⟨some d2, some d2⟩
  | _, _ => .ok ⟨none, dest⟩

/-- Loop of `mem_cpy` when `dest` and `src` point into one object, `src` at
offset `src` of it: `while (len--) *d++ = *s++`, at index `i`; every read sees
the writes made before it. -/
def mem_cpy_in_loop (d : cptr) (src : Int) (i : Nat) : Nat → Except fault cptr
  | 0 => .ok d
  | len + 1 => do
    let b ← load_raw ⟨d.obj, src⟩ i
    let d1 ← store d i b
    mem_cpy_in_loop d1 src (i + 1) len

/-- The function `mem_cpy` when `dest` and `src` point into one object; the
result is `dest` with the object updated. -/
def mem_cpy_in (dest : cptr) (src : Int) (len : Nat) : Except fault cptr :=
  mem_cpy_in_loop dest src 0 len

/-- The function `str_cpy` when `dest` and `src` are not missing and point
into one object, `src` at offset `src` of it. -/
def str_cpy_in (dest : cptr) (src : Int) (len : Nat) :
    Except fault str_cpy_result :=
  if len = 0 then .ok ⟨some dest, some dest⟩
  else do
    let d1 ← mem_set dest 0 ((len + 1) % 2 ^ SIZE_BITS)
    let d2 ← mem_cpy_in d1 src len
    .ok ⟨some d2, some d2⟩

/-- Loop of `position`: `for (i = 0; i < len; i++) if (p[i] == c) return i`,
with `n` iterations left; falls through to `return -1`. -/
def position_loop (p : cptr) (c : Nat) (i : Int) : Nat → Except fault Int
  | 0 => .ok (-1)
  | n + 1 => do
    let b ← load p i
    if b = c then .ok i else position_loop p c (i + 1) n

/-- The function `position`. -/
def position (p : cstr) (c : Nat) : Except fault Int := do
  let len ← str_len p
  match p with
  | none => .ok (-1)
  | some q => if len = 0 then .ok (-1) else position_loop q c 0 len.toNat

/-- Loop of `loc`: `for (i = 0; i < len; i++) if (s[i] != p[i]) return i - 1`,
with `n` iterations left; falls through to `return -1`. -/
def loc_loop (s p : cptr) (i : Int) : Nat → Except fault Int
  | 0 => .ok (-1)
  | n + 1 => do
    let a ← load s i
    let b ← load p i
    if a ≠ b then .ok (i - 1) else loc_loop s p (i + 1) n

/-- The function `loc`. -/
def loc (s p : cstr) : Except fault Int := do
  let s_len ← str_len s
  let p_len ← str_len p
  let len := MIN s_len p_len
  match s, p with
  | some s1, some p1 => loc_loop s1 p1 0 len.toNat
  | _, _ => .ok (-1)

/-! ## Nodes -/

/-- A key and value pair produced by a lookup: `struct param`. -/
structure param where
  key : cstr
  value : cstr
deriving DecidableEq, Repr

/-- The enumeration `node_kind`. -/
inductive node_kind where
  | node_static
  | node_parameter
  | node_catchall
deriving DecidableEq, Repr

/-- The structure `struct node`.  A `void *` is `none` (`NULL`) or an opaque
handle; the array `nodes` is the list of its slots, a slot being `none` while
it is uninitialised, and the null array is the empty list; likewise for
`params`. -/
structure node where
  kind : node_kind
  static_data : cstr
  data : Option Nat
  indices : cstr
  nodes : List (Option node)
  nodes_len : Nat
  params : List cstr
  params_len : Nat

/-- The function `node_init`: the value stored into the node. -/
def node_init (kind : node_kind) (static_data : cstr) : node :=
  { kind := kind
    static_data := static_data
    data := none
    indices := none
    nodes := []
    nodes_len := 0
    params := []
    params_len := 0 }

/-- The function `_node_swap`: the new contents of `a` and of `b`. -/
def _node_swap (a b : node) : node × node :=
  (b, a)

/-- A returned `struct node *`: `NULL`, or the pointer `node` that the
function received. -/
inductive node_ptr where
  | null
  | arg
deriving DecidableEq, Repr

/-- The function `_node_add_node`: its body is `return NULL`. -/
def _node_add_node (_nd : node) (_c : Nat) (_kind : node_kind)
    (_static_data : cstr) : node_ptr :=
  .null

/-- The function `node_add_node_static`. -/
def node_add_node_static (nd : node) (static_data : cstr) :
    Except fault node_ptr :=
  match static_data with
  | none => .ok .arg
  | some sd => do
    let n ← str_len (some sd)
    if n = 0 then .ok .arg
    else do
      let c ← load sd 0
      .ok (_node_add_node nd c .node_static (some sd))

/-- The function `node_add_node_dynamic`. -/
def node_add_node_dynamic (nd : node) (c : Nat) (kind : node_kind)
    (static_data : cstr) : node_ptr :=
  _node_add_node nd c kind static_data

/-- Largest request `malloc` can satisfy. -/
def PTRDIFF_MAX : Nat := 2 ^ (SIZE_BITS - 1) - 1

/-- The library function `malloc` for character storage: a fresh object of
`size` indeterminate bytes.  A request above `PTRDIFF_MAX` fails; for a
request of zero bytes C lets the implementation return `NULL` or a pointer to
an empty object, which `zero_null` selects. -/
def malloc (zero_null : Bool) (size : Nat) : cstr :=
  if size = 0 then (if zero_null then none else some ⟨[], 0⟩)
  else if size ≤ PTRDIFF_MAX then some ⟨List.replicate size none, 0⟩
  else none

/-- State after `node_insert`: the contents of `*node`, the pattern pointer
with the state of its object, and the returned pointer. -/
structure node_insert_result where
  node : node
  p : cstr
  ret : node_ptr

/-- The block of `node_insert` guarded by `if (l < s_len)`: the contents of
`*node` and the state of the pattern afterwards. -/
def node_insert_split (zero_null : Bool) (nd : node) (p : cstr) (l : Int) :
    Except fault (node × cstr) := do
  -- node->static_data = node->static_data + l;
  let sd ← ptr_add nd.static_data l
  let nd1 : node := { nd with static_data := sd }
  -- new_node = malloc(sizeof(struct node)); fields set one by one
  let ind0 : cptr := ⟨[none, none], 0⟩
  let c ← (match sd with
    | none => .error .null
    | some q => load_raw q 0)
  -- new_node->indices[1] = node->static_data[0];
  let ind1 ← store ind0 1 c
  -- new_node->indices[1] = 0;
  let ind2 ← store ind1 1 (some 0)
  -- new_node->static_data = malloc(sizeof(char) * l);
  let new_sd := malloc zero_null (to_size_t l)
  -- str_cpy(p, new_node->static_data, l-1);
  let r ← str_cpy p new_sd (to_size_t (l - 1))
  let new_node : node :=
    { kind := .node_static
      static_data := new_sd
      data := none
      indices := some ind2
      nodes := [none]
      nodes_len := 1
      params := []
      params_len := 0 }
  -- _node_swap(node, new_node);
  let sw := _node_swap nd1 new_node
  -- node->nodes[0] = *new_node;
  .ok ({ sw.1 with nodes := sw.1.nodes.set 0 (some sw.2) }, r.dest)

/-- The function `node_insert`. -/
def node_insert (zero_null : Bool) (nd : node) (p : cstr) :
    Except fault node_insert_result :=
  match nd.kind with
  | .node_static => do
    let n0 ← str_len nd.static_data
    if n0 = 0 then
      -- node->static_data = p; return node;
      .ok ⟨{ nd with static_data := p }, p, .arg⟩
    else do
      let l ← loc nd.static_data p
      let p_len ← str_len p
      let s_len ← str_len nd.static_data
      let st ← (if l < s_len then node_insert_split zero_null nd p l
        else .ok (nd, p))
      if l = p_len then .ok ⟨st.1, st.2, .arg⟩
      else do
        let q ← ptr_add st.2 l
        let r ← node_add_node_static st.1 q
        .ok ⟨st.1, st.2, r⟩
  | .node_parameter => do
    let r ← node_add_node_static nd p
    .ok ⟨nd, p, r⟩
  | .node_catchall => .ok ⟨nd, p, .arg⟩

/-- The function `node_find`: its body is empty, so the parameter array and
`*params_len` are returned as they were. -/
def node_find (_nd : node) (_p : cstr) (params : Option (List param))
    (params_len : Nat) : Option (List param) × Nat :=
  (params, params_len)

/-! ## The tree -/

/-- The structure `struct path_tree`. -/
structure path_tree where
  root : node
  data_size : Nat
  params : Nat

/-- The function `path_tree_init`: the value stored into `*tree`. -/
def path_tree_init (data_size : Nat) : path_tree :=
  let node := node_init .node_static (lit "/")
  { root := node
    data_size := data_size
    params := 0 }

/-- The function `path_tree_insert`: its body is empty, so the tree is
returned as it was. -/
def path_tree_insert (tree : path_tree) (_path : cstr) (_data : Option Nat) :
    path_tree :=
  tree

/-- State after `path_tree_find`: the returned `bool`, the tree, the payload
output `data`, the parameter array and `*params_len`. -/
structure path_tree_find_result where
  ret : bool
  tree : path_tree
  data : Option Nat
  params : Option (List param)
  params_len : Nat

/-- The function `path_tree_find`: its body is `return FALSE`. -/
def path_tree_find (tree : path_tree) (_path : cstr) (data : Option Nat)
    (params : Option (List param)) (params_len : Nat) :
    path_tree_find_result :=
  { ret := FALSE
    tree := tree
    data := data
    params := params
    params_len := params_len }

/-- The function `find_example`: the state after its call of
`path_tree_find`. -/
def find_example (tree : path_tree) : path_tree_find_result :=
  path_tree_find tree (lit "/") none none 0

/-! ## Specification vocabulary -/

/-- Bytes of a string in memory up to its terminator, scanning a byte list. -/
def str_bytes_loop : List (Option Nat) → Option (List Nat)
  | [] => none
  | none :: _ => none
  | some b :: rest =>
    if b = 0 then some [] else (str_bytes_loop rest).map (fun t => b :: t)

/-- Bytes of the string a pointer designates, when it designates one. -/
def str_bytes (s : cstr) : Option (List Nat) :=
  match s with
  | none => none
  | some q => if q.off < 0 then none else str_bytes_loop (q.obj.drop q.off.toNat)

/-- Relation `labelled_at n acc m`: node `m` is `n` or lies below `n`, and
`acc` is the concatenation of the labels from `n` down to `m`. -/
inductive labelled_at : node → List Nat → node → Prop where
  | at_node (n : node) (l : List Nat) :
      str_bytes n.static_data = some l → labelled_at n l n
  | at_child (n c m : node) (l acc : List Nat) :
      some c ∈ n.nodes → str_bytes n.static_data = some l →
      labelled_at c acc m → labelled_at n (l ++ acc) m

/-- Node `m` has a static child whose label is `l`. -/
def has_static_child (m : node) (l : List Nat) : Prop :=
  ∃ c, some c ∈ m.nodes ∧ c.kind = .node_static ∧ str_bytes c.static_data = some l

/-- The tree holds a static node with accumulated label `/user/` that has
exactly two children, static ones labelled `profile` and `settings`. -/
def user_subtree_shared (t : path_tree) : Prop :=
  ∃ m, labelled_at t.root (text "/user/") m ∧ m.kind = .node_static ∧
    m.nodes_len = 2 ∧ has_static_child m (text "profile") ∧
    has_static_child m (text "settings")

/-- Length of the longest common start of two byte lists. -/
def lcp_len : List Nat → List Nat → Nat
  | a :: s, b :: p => if a = b then lcp_len s p + 1 else 0
  | _, _ => 0

/-- A failed `node_insert` (it returns `NULL`) leaves the node as it was. -/
def insert_failure_atomic (zero_null : Bool) (nd : node) (p : cstr) : Prop :=
  ∀ r, node_insert zero_null nd p = .ok r → r.ret = .null → r.node = nd

/-- What C20 says of `str_cpy` for `len > 0`, read for `dest` and `src` in
one object: it returns `dest`, `dest[0..len)` holds the bytes that
`src[0..len)` held, and `dest[len]` is the terminator. -/
def str_cpy_in_copies (dest : cptr) (src : Int) (len : Nat) : Prop :=
  ∃ d1, str_cpy_in dest src len = .ok ⟨some d1, some d1⟩ ∧
    (∀ i : Nat, i < len → load_raw d1 i = load_raw ⟨dest.obj, src⟩ i) ∧
    load d1 len = .ok 0

/-- A label of `2 ^ 31` bytes, all of them 1. -/
def long_label : List Nat :=
  List.replicate (2 ^ 31) 1

/-- Example node: a fresh Static node labelled `/user/profile`. -/
def profile_node : node :=
  node_init .node_static (lit "/user/profile")

/-- State after `node_insert` of `/user/settings` at `profile_node`: the node
has become an ancestor whose label is five indeterminate bytes and whose only
child is the old node with its label pointer advanced by five; the first five
bytes of the pattern have been overwritten; the call returned `NULL`. -/
def profile_split : node_insert_result :=
  { node :=
      { kind := .node_static
        static_data := some ⟨List.replicate 5 none, 0⟩
        data := none
        indices := some ⟨[none, some 0], 0⟩
        nodes := [some { profile_node with
                    static_data := some ⟨(text "/user/profile").map some ++ [some 0], 5⟩ }]
        nodes_len := 1
        params := []
        params_len := 0 }
    p := some ⟨List.replicate 4 none ++ some 0 :: (text "/settings").map some ++ [some 0], 0⟩
    ret := .null }

/-- Pointer `k` bytes into the memory image of a string literal. -/
def lit_at (s : String) (k : Int) : cstr :=
  some ⟨(text s).map some ++ [some 0], k⟩

/-- Example node: the child of `profile_split`, a Static node whose label
`/profile` starts five bytes into `/user/profile`. -/
def tail_node : node :=
  { profile_node with static_data := lit_at "/user/profile" 5 }

/-- State after `node_insert` at `tail_node` of a pattern that starts five
bytes into its object and is a prefix of the label: `loc` returned -1, the
node has become an ancestor without label whose only child is the old node
with its label pointer moved back by one; the pattern `p` is untouched; the
call returned `NULL`. -/
def tail_split (p : cstr) : node_insert_result :=
  { node :=
      { kind := .node_static
        static_data := none
        data := none
        indices := some ⟨[none, some 0], 0⟩
        nodes := [some { tail_node with static_data := lit_at "/user/profile" 4 }]
        nodes_len := 1
        params := []
        params_len := 0 }
    p := p
    ret := .null }

/-- Indices invariant at one node: `indices` is a string as long as the child
array, every slot of the array holds a child, and byte `i` of `indices` is the
first byte of the label of child `i`. -/
def indices_match (n : node) : Prop :=
  str_len n.indices = .ok (n.nodes_len : Int) ∧ n.nodes.length = n.nodes_len ∧
  ∀ (i : Nat) (h : i < n.nodes.length),
    ∃ c q s b, n.nodes.get ⟨i, h⟩ = some c ∧ n.indices = some q ∧
      c.static_data = some s ∧ load q i = .ok b ∧ load s 0 = .ok b

/-! ## Registration and lookup -/

/-- Below a node without children there is only the node itself. -/
theorem labelled_at_leaf {n m : node} {acc : List Nat}
    (h : labelled_at n acc m) (hn : n.nodes = []) : m = n := by
  cases h with
  | at_node _ _ _ => rfl
  | at_child _ c _ l acc1 hc hl hm =>
    rw [hn] at hc
    exact absurd hc (List.not_mem_nil _)

/-- C1, as stated, fails: on the tree from `path_tree_init`, after
`path_tree_insert` of the pattern `/` with a payload, `path_tree_find` on the
path `/` does not report found. -/
theorem path_tree_find_roundtrip_fails :
    (path_tree_find (path_tree_insert (path_tree_init 4) (lit "/") (some 7))
      (lit "/") none none 0).ret ≠ TRUE := by
  decide

/-- C1, amended: for every initial tree, pattern and payload,
`path_tree_insert` leaves the tree as it was, and `path_tree_find` on every
path reports not found (`FALSE`) and leaves the payload output, the parameter
list and `params_len` as the caller passed them. -/
theorem path_tree_find_after_insert (data_size : Nat) (P path : cstr)
    (V data : Option Nat) (params : Option (List param)) (params_len : Nat) :
    path_tree_insert (path_tree_init data_size) P V = path_tree_init data_size ∧
    (path_tree_find (path_tree_insert (path_tree_init data_size) P V) path
      data params params_len).ret = FALSE ∧
    (path_tree_find (path_tree_insert (path_tree_init data_size) P V) path
      data params params_len).data = data ∧
    (path_tree_find (path_tree_insert (path_tree_init data_size) P V) path
      data params params_len).params = params ∧
    (path_tree_find (path_tree_insert (path_tree_init data_size) P V) path
      data params params_len).params_len = params_len :=
  ⟨rfl, rfl, rfl, rfl, rfl⟩

/-- C2, as stated, fails: after `path_tree_insert` of `/user/:id` on a fresh
tree, `path_tree_find` on `/user/42` does not report found with
`params_len = 1`. -/
theorem path_tree_find_capture_fails :
    ¬ ((path_tree_find
          (path_tree_insert (path_tree_init 4) (lit "/user/:id") (some 7))
          (lit "/user/42") none (some []) 0).ret = TRUE ∧
       (path_tree_find
          (path_tree_insert (path_tree_init 4) (lit "/user/:id") (some 7))
          (lit "/user/42") none (some []) 0).params_len = 1) := by
  decide

/-- C2, amended: on a freshly initialised tree, after `path_tree_insert` of
`/user/:id`, `path_tree_find` on `/user/42` reports not found and produces no
pair: the parameter list and `params_len` stay as the caller passed them. -/
theorem path_tree_find_capture (data_size : Nat) (V data : Option Nat)
    (params : Option (List param)) (params_len : Nat) :
    (path_tree_find
      (path_tree_insert (path_tree_init data_size) (lit "/user/:id") V)
      (lit "/user/42") data params params_len).ret = FALSE ∧
    (path_tree_find
      (path_tree_insert (path_tree_init data_size) (lit "/user/:id") V)
      (lit "/user/42") data params params_len).params = params ∧
    (path_tree_find
      (path_tree_insert (path_tree_init data_size) (lit "/user/:id") V)
      (lit "/user/42") data params params_len).params_len = params_len :=
  ⟨rfl, rfl, rfl⟩

/-- C3, as stated, fails: with `/search/:query` (payload 1) and
`/search/literal` (payload 2) inserted, `path_tree_find` on `/search/literal`
does not report found with payload 2. -/
theorem path_tree_find_specificity_fails :
    ¬ ((path_tree_find
          (path_tree_insert
            (path_tree_insert (path_tree_init 4) (lit "/search/:query") (some 1))
            (lit "/search/literal") (some 2))
          (lit "/search/literal") none none 0).ret = TRUE ∧
       (path_tree_find
          (path_tree_insert
            (path_tree_insert (path_tree_init 4) (lit "/search/:query") (some 1))
            (lit "/search/literal") (some 2))
          (lit "/search/literal") none none 0).data = some 2) := by
  decide

/-- C3, amended: when both `/search/:query` (payload A) and `/search/literal`
(payload B) have been inserted, `path_tree_find` on `/search/literal` reports
not found and returns neither payload: the payload output stays as the caller
passed it. -/
theorem path_tree_find_specificity (data_size : Nat) (A B data : Option Nat)
    (params : Option (List param)) (params_len : Nat) :
    (path_tree_find
      (path_tree_insert
        (path_tree_insert (path_tree_init data_size) (lit "/search/:query") A)
        (lit "/search/literal") B)
      (lit "/search/literal") data params params_len).ret = FALSE ∧
    (path_tree_find
      (path_tree_insert
        (path_tree_insert (path_tree_init data_size) (lit "/search/:query") A)
        (lit "/search/literal") B)
      (lit "/search/literal") data params params_len).data = data :=
  ⟨rfl, rfl⟩

/-- C4, as stated, fails: after inserting `/user/profile` and then
`/user/settings` into a fresh tree, the tree holds no static node with
accumulated label `/user/` and the two static children. -/
theorem path_tree_insert_no_sharing :
    ¬ user_subtree_shared
        (path_tree_insert
          (path_tree_insert (path_tree_init 4) (lit "/user/profile") (some 1))
          (lit "/user/settings") (some 2)) := by
  rintro ⟨m, h, -, hlen, -, -⟩
  have hm := labelled_at_leaf h rfl
  rw [hm] at hlen
  exact absurd hlen (by decide)

/-- C4, amended: starting from a freshly initialised tree, inserting
`/user/profile` and then `/user/settings` leaves the freshly initialised
tree: its root is labelled `/` and has no children. -/
theorem path_tree_insert_two_routes (data_size : Nat) (v w : Option Nat) :
    path_tree_insert
        (path_tree_insert (path_tree_init data_size) (lit "/user/profile") v)
        (lit "/user/settings") w = path_tree_init data_size ∧
    str_bytes (path_tree_insert
        (path_tree_insert (path_tree_init data_size) (lit "/user/profile") v)
        (lit "/user/settings") w).root.static_data = some (text "/") ∧
    (path_tree_insert
        (path_tree_insert (path_tree_init data_size) (lit "/user/profile") v)
        (lit "/user/settings") w).root.nodes = [] ∧
    (path_tree_insert
        (path_tree_insert (path_tree_init data_size) (lit "/user/profile") v)
        (lit "/user/settings") w).root.nodes_len = 0 :=
  ⟨rfl, rfl, rfl, rfl⟩

/-- C5, as stated, fails: inserting `/user/:id` and then `/user/:name`, the
state after the second `path_tree_insert` is not distinguishable from the
state after the first. -/
theorem path_tree_insert_conflict_unreported :
    ¬ (path_tree_insert
          (path_tree_insert (path_tree_init 4) (lit "/user/:id") (some 1))
          (lit "/user/:name") (some 2)
        ≠ path_tree_insert (path_tree_init 4) (lit "/user/:id") (some 1)) :=
  fun h => h rfl

/-- C5, amended: inserting `/user/:id` and then `/user/:name` into the same
tree, each `path_tree_insert` returns nothing and leaves the tree it received
as it was, so the second insertion is not distinguishable from the first. -/
theorem path_tree_insert_conflict (tree : path_tree) (v w : Option Nat) :
    path_tree_insert tree (lit "/user/:id") v = tree ∧
    path_tree_insert (path_tree_insert tree (lit "/user/:id") v)
      (lit "/user/:name") w = path_tree_insert tree (lit "/user/:id") v :=
  ⟨rfl, rfl⟩

/-- C7: for every tree, freshly initialised or reached by any sequence of
`path_tree_insert` calls, `path_tree_find` on `/nonexistent` returns `FALSE`
and leaves the tree, the payload output and `params_len` unchanged. -/
theorem path_tree_find_nonexistent (tree : path_tree)
    (routes : List (cstr × Option Nat)) (data : Option Nat)
    (params : Option (List param)) (params_len : Nat) :
    (path_tree_find
      (routes.foldl (fun t r => path_tree_insert t r.1 r.2) tree)
      (lit "/nonexistent") data params params_len).ret = FALSE ∧
    (path_tree_find
      (routes.foldl (fun t r => path_tree_insert t r.1 r.2) tree)
      (lit "/nonexistent") data params params_len).tree
        = routes.foldl (fun t r => path_tree_insert t r.1 r.2) tree ∧
    (path_tree_find
      (routes.foldl (fun t r => path_tree_insert t r.1 r.2) tree)
      (lit "/nonexistent") data params params_len).data = data ∧
    (path_tree_find
      (routes.foldl (fun t r => path_tree_insert t r.1 r.2) tree)
      (lit "/nonexistent") data params params_len).params = params ∧
    (path_tree_find
      (routes.foldl (fun t r => path_tree_insert t r.1 r.2) tree)
      (lit "/nonexistent") data params params_len).params_len = params_len :=
  ⟨rfl, rfl, rfl, rfl, rfl⟩

/-- C8: `path_tree_find` is a function of the tree state and the path: the
found flag does not depend on what the output arguments held, the call leaves
the tree state as it was, and a second call with the same tree state and path
returns the same flag and the same outputs as the first. -/
theorem path_tree_find_deterministic (tree : path_tree) (path : cstr)
    (data data2 : Option Nat) (params params2 : Option (List param))
    (params_len params_len2 : Nat) :
    (path_tree_find tree path data params params_len).ret
      = (path_tree_find tree path data2 params2 params_len2).ret ∧
    (path_tree_find tree path data params params_len).tree = tree ∧
    path_tree_find (path_tree_find tree path data params params_len).tree path
        (path_tree_find tree path data params params_len).data
        (path_tree_find tree path data params params_len).params
        (path_tree_find tree path data params params_len).params_len
      = path_tree_find tree path data params params_len :=
  ⟨rfl, rfl, rfl⟩

/-- C9: for every `data_size`, `path_tree_init` produces a tree whose root is
a Static node with label exactly `/`, no payload, no indices, zero children
and zero parameter names, whose `data_size` is the argument and whose
`params` is 0. -/
theorem path_tree_init_state (data_size : Nat) :
    (path_tree_init data_size).root.kind = .node_static ∧
    str_bytes (path_tree_init data_size).root.static_data = some (text "/") ∧
    str_len (path_tree_init data_size).root.static_data = .ok 1 ∧
    (path_tree_init data_size).root.data = none ∧
    (path_tree_init data_size).root.indices = none ∧
    (path_tree_init data_size).root.nodes = [] ∧
    (path_tree_init data_size).root.nodes_len = 0 ∧
    (path_tree_init data_size).root.params = [] ∧
    (path_tree_init data_size).root.params_len = 0 ∧
    (path_tree_init data_size).data_size = data_size ∧
    (path_tree_init data_size).params = 0 :=
  ⟨rfl, rfl, rfl, rfl, rfl, rfl, rfl, rfl, rfl, rfl, rfl⟩

/-! ## The common-prefix helper `loc` -/

/-- C10, failing input: for `/user/profile` and `/user/settings`, whose
longest common prefix `/user/` has length 6, `loc` returns 5. -/
theorem loc_user_routes :
    loc (lit "/user/profile") (lit "/user/settings") = .ok 5 ∧
    lcp_len (text "/user/profile") (text "/user/settings") = 6 ∧
    loc (lit "/user/profile") (lit "/user/settings")
      ≠ .ok (lcp_len (text "/user/profile") (text "/user/settings") : Int) := by
  decide

/-- Range of the loop of `loc`: it returns -1, or a value from `i - 1` up to
`i + k - 2`. -/
theorem loc_loop_range (s p : cptr) :
    ∀ (k : Nat) (i l : Int), loc_loop s p i k = .ok l →
      l = -1 ∨ (i - 1 ≤ l ∧ l + 1 < i + k) := by
  intro k
  induction k with
  | zero =>
    intro i l h
    simp [loc_loop] at h
    exact Or.inl h.symm
  | succ k ih =>
    intro i l h
    simp only [loc_loop, bind, Except.bind] at h
    cases ha : load s i with
    | error e => simp [ha] at h
    | ok a =>
      cases hb : load p i with
      | error e => simp [ha, hb] at h
      | ok b =>
        simp only [ha, hb] at h
        by_cases hab : a = b
        · simp only [hab, ne_eq, not_true_eq_false, if_false] at h
          rcases ih (i + 1) l h with h1 | ⟨h1, h2⟩
          · exact Or.inl h1
          · right
            push_cast
            omega
        · simp only [ne_eq, hab, not_false_eq_true, if_true] at h
          injection h with h
          right
          push_cast
          omega

/-- Against a string of positive length `n`, `loc` returns a value from -1 up
to `n - 1`. -/
theorem loc_lt_len {s p : cstr} {l n : Int} (hl : loc s p = .ok l)
    (hn : str_len s = .ok n) (hpos : 0 < n) : -1 ≤ l ∧ l < n := by
  simp only [loc, bind, Except.bind, hn] at hl
  cases hp : str_len p with
  | error e => simp [hp] at hl
  | ok m =>
    simp only [hp] at hl
    cases s with
    | none => simp at hl; omega
    | some s1 =>
      cases p with
      | none => simp at hl; omega
      | some p1 =>
        simp only at hl
        rcases loc_loop_range s1 p1 _ 0 l hl with h | ⟨h1, h2⟩
        · omega
        · have hmin : MIN n m ≤ n := by
            unfold MIN
            split <;> omega
          omega

/-! ## Insertion at a node -/

/-- Shape of the node after the split block of `node_insert`. -/
theorem node_insert_split_shape {z : Bool} {nd nd1 : node} {p p1 : cstr} {l : Int}
    (h : node_insert_split z nd p l = .ok (nd1, p1)) :
    ∃ sd, ptr_add nd.static_data l = .ok sd ∧
      nd1 = { kind := .node_static
              static_data := malloc z (to_size_t l)
              data := none
              indices := some ⟨[none, some 0], 0⟩
              nodes := [some { nd with static_data := sd }]
              nodes_len := 1
              params := []
              params_len := 0 } := by
  simp only [node_insert_split, bind, Except.bind] at h
  cases hsd : ptr_add nd.static_data l with
  | error e => simp [hsd] at h
  | ok sd =>
    refine ⟨sd, rfl, ?_⟩
    simp only [hsd] at h
    cases sd with
    | none => simp at h
    | some q =>
      simp only at h
      cases hc : load_raw q 0 with
      | error e => simp [hc] at h
      | ok c =>
        simp only [hc] at h
        have hst : store ⟨[none, none], 0⟩ 1 c = .ok ⟨[none, c], 0⟩ := by
          simp [store]
        have hst2 : store ⟨[none, c], 0⟩ 1 (some 0) = .ok ⟨[none, some 0], 0⟩ := by
          simp [store]
        simp only [hst, hst2] at h
        cases hr : str_cpy p (malloc z (to_size_t l)) (to_size_t (l - 1)) with
        | error e => simp [hr] at h
        | ok r =>
          simp only [hr, _node_swap, List.set_cons_zero, Except.ok.injEq, Prod.mk.injEq] at h
          exact h.1.symm

/-- On a Static node whose label has positive length, `node_insert` always
runs its split block, and the node and pattern it leaves are those the block
produced. -/
theorem node_insert_static_split {z : Bool} {nd : node} {p : cstr} {n : Int}
    {r : node_insert_result}
    (hk : nd.kind = .node_static) (hn : str_len nd.static_data = .ok n)
    (hpos : 0 < n) (h : node_insert z nd p = .ok r) :
    ∃ l, loc nd.static_data p = .ok l ∧
      node_insert_split z nd p l = .ok (r.node, r.p) := by
  simp only [node_insert, hk, bind, Except.bind, hn] at h
  have hn0 : ¬ n = 0 := by omega
  simp only [hn0, if_false] at h
  cases hl : loc nd.static_data p with
  | error e => simp [hl] at h
  | ok l =>
    refine ⟨l, rfl, ?_⟩
    simp only [hl] at h
    cases hp : str_len p with
    | error e => simp [hp] at h
    | ok m =>
      simp only [hp] at h
      have hlt : l < n := (loc_lt_len hl hn hpos).2
      simp only [hlt, if_true] at h
      cases hs : node_insert_split z nd p l with
      | error e => simp [hs] at h
      | ok st =>
        simp only [hs] at h
        split at h
        · injection h with h
          subst h
          rfl
        · cases hq : ptr_add st.2 l with
          | error e => simp [hq] at h
          | ok q =>
            simp only [hq] at h
            cases ha : node_add_node_static st.1 q with
            | error e => simp [ha] at h
            | ok a =>
              simp only [ha] at h
              injection h with h
              subst h
              rfl

/-- Evaluation of `node_insert` at the root of a fresh tree with the pattern
`/user/profile`: `loc` returns -1, the label pointer is moved one byte before
its object and the read of `node->static_data[0]` is out of bounds. -/
theorem node_insert_root_profile (z : Bool) (data_size : Nat) :
    loc (path_tree_init data_size).root.static_data (lit "/user/profile") = .ok (-1) ∧
    node_insert z (path_tree_init data_size).root (lit "/user/profile")
      = .error .oob := by
  cases z <;> exact ⟨rfl, rfl⟩

/-- Evaluation of `node_insert` at a Parameter node named `id`: with the
pattern `name` and with the pattern `id` alike it returns `NULL` and leaves
the node as it was, so the names are not compared. -/
theorem node_insert_parameter_id (z : Bool) :
    (node_insert z (node_init .node_parameter (lit "id")) (lit "name")).map
        (fun r => (r.ret, r.node.static_data, r.node.nodes_len))
      = .ok (.null, lit "id", 0) ∧
    (node_insert z (node_init .node_parameter (lit "id")) (lit "id")).map
        (fun r => (r.ret, r.node.static_data, r.node.nodes_len))
      = .ok (.null, lit "id", 0) := by
  cases z <;> exact ⟨rfl, rfl⟩

/-- No node is the single element of its own child array. -/
theorem node_not_own_child (c : node) : c.nodes ≠ [some c] := by
  intro h
  have hs := congrArg sizeOf h
  have hc : sizeOf c.nodes < sizeOf c := by
    cases c
    simp only [node.mk.sizeOf_spec]
    omega
  simp at hs
  omega

/-- Evaluation of `node_insert` at `profile_node` with the pattern
`/user/settings`. -/
theorem node_insert_profile :
    node_insert false profile_node (lit "/user/settings") = .ok profile_split := by
  rfl

/-- C6, as stated, fails: `node_insert` of `/user/settings` at a Static node
labelled `/user/profile` returns `NULL` and leaves the node changed. -/
theorem node_insert_failure_not_atomic :
    ¬ insert_failure_atomic false profile_node (lit "/user/settings") := by
  intro h
  have h1 := congrArg node.nodes_len (h profile_split rfl rfl)
  exact absurd h1 (by decide)

/-- When `node_add_node_static` returns `NULL`, the label it was given is not
empty. -/
theorem node_add_node_static_null_inv {nd : node} {q : cstr}
    (h : node_add_node_static nd q = .ok .null) :
    ∃ k, str_len q = .ok k ∧ k ≠ 0 := by
  cases q with
  | none => simp [node_add_node_static] at h
  | some sd =>
    simp only [node_add_node_static, bind, Except.bind] at h
    cases hk : str_len (some sd) with
    | error e => simp [hk] at h
    | ok k =>
      refine ⟨k, rfl, ?_⟩
      intro hk0
      simp [hk, hk0] at h

/-- The steps of `node_insert` at a Static node whose label is not empty, with
`l` the value of `loc`: the split block runs exactly when `l < s_len`, and the
call returns the node when `l` is the pattern length and the result of
`node_add_node_static` on `p + l` otherwise. -/
theorem node_insert_static_steps {z : Bool} {nd : node} {p : cstr} {n l : Int}
    {r : node_insert_result}
    (hk : nd.kind = .node_static) (hn : str_len nd.static_data = .ok n)
    (hne : n ≠ 0) (hl : loc nd.static_data p = .ok l)
    (h : node_insert z nd p = .ok r) :
    ∃ m, str_len p = .ok m ∧
      (if l < n then node_insert_split z nd p l else .ok (nd, p)) = .ok (r.node, r.p) ∧
      ((l = m ∧ r.ret = .arg) ∨
       (l ≠ m ∧ ∃ q, ptr_add r.p l = .ok q ∧
          node_add_node_static r.node q = .ok r.ret)) := by
  simp only [node_insert, hk, bind, Except.bind, hn, hne, if_false, hl] at h
  cases hp : str_len p with
  | error e => simp [hp] at h
  | ok m =>
    refine ⟨m, rfl, ?_⟩
    simp only [hp] at h
    cases hs : (if l < n then node_insert_split z nd p l else .ok (nd, p)) with
    | error e => simp [hs] at h
    | ok st =>
      simp only [hs] at h
      by_cases hlm : l = m
      · simp only [hlm, if_true] at h
        injection h with h
        subst h
        exact ⟨rfl, Or.inl ⟨hlm, rfl⟩⟩
      · simp only [hlm, if_false] at h
        cases hq : ptr_add st.2 l with
        | error e => simp [hq] at h
        | ok q =>
          simp only [hq] at h
          cases ha : node_add_node_static st.1 q with
          | error e => simp [ha] at h
          | ok a =>
            simp only [ha] at h
            injection h with h
            subst h
            exact ⟨rfl, Or.inr ⟨hlm, q, hq, ha⟩⟩

/-- C6, amended: for every Static node whose label is not empty and every
pattern `p`, with `l` the value of `loc`, if `node_insert` fails (returns
`NULL`) then `l` is not the pattern length and the failure is the `NULL` of
`node_add_node_static` for the non-empty rest `p + l`; if the split block ran
(`l < s_len`) the split persists: the node is a Static node with no payload,
one child and no parameter names, the child holds the original kind, payload,
indices, children and parameter names with the label pointer advanced by `l`,
and the children of the node are not what they were; if the split block did
not run, the node and the pattern are exactly as before the call. -/
theorem node_insert_failure_guarded (z : Bool) (nd : node) (p : cstr) (n l : Int)
    (r : node_insert_result)
    (hk : nd.kind = .node_static) (hn : str_len nd.static_data = .ok n)
    (hne : n ≠ 0) (hl : loc nd.static_data p = .ok l)
    (h : node_insert z nd p = .ok r) (hret : r.ret = .null) :
    (∃ m, str_len p = .ok m ∧ l ≠ m) ∧
    (∃ q k, ptr_add r.p l = .ok q ∧ str_len q = .ok k ∧ k ≠ 0 ∧
      node_add_node_static r.node q = .ok .null) ∧
    (l < n →
      r.node.kind = .node_static ∧ r.node.data = none ∧ r.node.nodes_len = 1 ∧
      r.node.params = [] ∧ r.node.params_len = 0 ∧
      (∃ c, r.node.nodes = [some c] ∧
        ptr_add nd.static_data l = .ok c.static_data ∧
        c.kind = nd.kind ∧ c.data = nd.data ∧ c.indices = nd.indices ∧
        c.nodes = nd.nodes ∧ c.nodes_len = nd.nodes_len ∧
        c.params = nd.params ∧ c.params_len = nd.params_len) ∧
      r.node.nodes ≠ nd.nodes) ∧
    (¬ l < n → r.node = nd ∧ r.p = p) := by
  obtain ⟨m, hm, hst, hcase⟩ := node_insert_static_steps hk hn hne hl h
  have hfail : l ≠ m ∧ ∃ q, ptr_add r.p l = .ok q ∧
      node_add_node_static r.node q = .ok .null := by
    rcases hcase with ⟨-, harg⟩ | ⟨hlm, q, hq, ha⟩
    · rw [hret] at harg
      exact absurd harg (by decide)
    · rw [hret] at ha
      exact ⟨hlm, q, hq, ha⟩
  obtain ⟨hlm, q, hq, ha⟩ := hfail
  obtain ⟨k, hk1, hk0⟩ := node_add_node_static_null_inv ha
  refine ⟨⟨m, hm, hlm⟩, ⟨q, k, hq, hk1, hk0, ha⟩, ?_, ?_⟩
  · intro hguard
    rw [if_pos hguard] at hst
    obtain ⟨sd, hsd, hnode⟩ := node_insert_split_shape hst
    rw [hnode]
    refine ⟨rfl, rfl, rfl, rfl, rfl, ⟨_, rfl, hsd, rfl, rfl, rfl, rfl, rfl, rfl, rfl⟩, ?_⟩
    intro heq
    exact node_not_own_child { nd with static_data := sd } heq.symm
  · intro hguard
    rw [if_neg hguard] at hst
    injection hst with hst
    injection hst with h1 h2
    exact ⟨h1.symm, h2.symm⟩

/-- The loop of `str_len` over bytes without a zero, followed by the
terminator, counts the bytes. -/
theorem str_len_loop_bytes (a : List Nat) (h0 : ∀ x ∈ a, x ≠ 0) (k : Nat) :
    str_len_loop (a.map some ++ [some 0]) k = .ok (k + a.length) := by
  induction a generalizing k with
  | nil => simp [str_len_loop]
  | cons x a ih =>
    have hx : x ≠ 0 := h0 x (List.mem_cons_self _ _)
    have ha : ∀ y ∈ a, y ≠ 0 := fun y hy => h0 y (List.mem_cons_of_mem _ hy)
    simp only [List.map_cons, List.cons_append, str_len_loop, hx, if_false,
      List.length_cons]
    show str_len_loop (List.map some a ++ [some 0]) (k + 1) = _
    rw [ih ha]
    congr 1
    omega

/-- The conversion to `int` keeps a length below `2 ^ 31`. -/
theorem to_int_small (n : Nat) (h : n < 2 ^ 31) : to_int n = n := by
  unfold to_int INT_BITS
  norm_num
  omega

/-- The function `str_len` on a terminated string of fewer than `2 ^ 31`
bytes returns its length. -/
theorem str_len_cstr_of (a : List Nat) (h0 : ∀ x ∈ a, x ≠ 0)
    (hlen : a.length < 2 ^ 31) : str_len (cstr_of a) = .ok (a.length : Int) := by
  simp only [str_len, cstr_of]
  simp [str_len_loop_bytes a h0 0, to_int_small a.length hlen]

/-- Reading a byte of a terminated string inside its text. -/
theorem load_cstr_of (a : List Nat) (i : Nat) (h : i < a.length) :
    load ⟨a.map some ++ [some 0], 0⟩ (i : Int) = .ok (a.get ⟨i, h⟩) := by
  have hneg : ¬ ((0 : Int) + (i : Int) < 0) := by omega
  simp only [load, load_raw, hneg, if_false]
  simp [List.getElem?_append_left, h]

/-- One step of `lcp_len` at index `i`. -/
theorem lcp_len_drop (a b : List Nat) (i : Nat) (ha : i < a.length) (hb : i < b.length) :
    lcp_len (a.drop i) (b.drop i) =
      if a.get ⟨i, ha⟩ = b.get ⟨i, hb⟩ then lcp_len (a.drop (i + 1)) (b.drop (i + 1)) + 1
      else 0 := by
  rw [List.drop_eq_getElem_cons ha, List.drop_eq_getElem_cons hb]
  simp [lcp_len]

/-- The loop of `loc` on two terminated strings: one less than the index of the
first mismatch when it meets one, -1 otherwise. -/
theorem loc_loop_cstr_of (a b : List Nat) :
    ∀ (k i : Nat), i + k ≤ a.length → i + k ≤ b.length →
      loc_loop ⟨a.map some ++ [some 0], 0⟩ ⟨b.map some ++ [some 0], 0⟩ (i : Int) k
        = .ok (if lcp_len (a.drop i) (b.drop i) < k
            then (i : Int) + (lcp_len (a.drop i) (b.drop i) : Int) - 1 else -1) := by
  intro k
  induction k with
  | zero => intro i _ _; simp [loc_loop]
  | succ k ih =>
    intro i ha hb
    have hia : i < a.length := by omega
    have hib : i < b.length := by omega
    simp only [loc_loop, bind, Except.bind, load_cstr_of a i hia, load_cstr_of b i hib]
    rw [lcp_len_drop a b i hia hib]
    by_cases hab : a.get ⟨i, hia⟩ = b.get ⟨i, hib⟩
    · simp only [hab, ne_eq, not_true_eq_false, if_false, if_true]
      have := ih (i + 1) (by omega) (by omega)
      push_cast at this
      rw [this]
      congr 1
      by_cases hlt : lcp_len (a.drop (i + 1)) (b.drop (i + 1)) < k
      · simp [hlt]; omega
      · simp [hlt]
    · simp only [List.get_eq_getElem] at hab
      simp [hab]

/-- The function `loc` on two terminated strings returns the length of the
longest common prefix minus one when the strings differ inside the shorter
one, and -1 when one is a prefix of the other. -/
theorem loc_cstr_of (a b : List Nat) (ha0 : ∀ x ∈ a, x ≠ 0) (hb0 : ∀ x ∈ b, x ≠ 0)
    (ha : a.length < 2 ^ 31) (hb : b.length < 2 ^ 31) :
    loc (cstr_of a) (cstr_of b)
      = .ok (if lcp_len a b < min a.length b.length
          then (lcp_len a b : Int) - 1 else -1) := by
  simp only [loc, bind, Except.bind, str_len_cstr_of a ha0 ha, str_len_cstr_of b hb0 hb]
  simp only [cstr_of]
  have hmin : (MIN (a.length : Int) (b.length : Int)).toNat = min a.length b.length := by
    unfold MIN
    split <;> omega
  rw [hmin]
  have := loc_loop_cstr_of a b (min a.length b.length) 0 (by omega) (by omega)
  simpa using this

/-- The value `lcp_len a b` is at most both lengths. -/
theorem lcp_len_le (a b : List Nat) :
    lcp_len a b ≤ a.length ∧ lcp_len a b ≤ b.length := by
  induction a generalizing b with
  | nil => simp [lcp_len]
  | cons x a ih =>
    cases b with
    | nil => simp [lcp_len]
    | cons y b =>
      simp only [lcp_len, List.length_cons]
      split
      · have := ih b
        omega
      · omega

/-- The two strings agree on their first `lcp_len a b` bytes. -/
theorem lcp_len_take (a b : List Nat) :
    a.take (lcp_len a b) = b.take (lcp_len a b) := by
  induction a generalizing b with
  | nil => simp [lcp_len]
  | cons x a ih =>
    cases b with
    | nil => simp [lcp_len]
    | cons y b =>
      simp only [lcp_len]
      split
      · rename_i hxy
        simp [hxy, ih b]
      · simp

/-- The value `lcp_len a b` is the largest `n` on which the strings agree. -/
theorem lcp_len_largest (a b : List Nat) (n : Nat) (ha : n ≤ a.length)
    (hb : n ≤ b.length) (h : a.take n = b.take n) : n ≤ lcp_len a b := by
  induction a generalizing b n with
  | nil => simp at ha; omega
  | cons x a ih =>
    cases b with
    | nil => simp at hb; omega
    | cons y b =>
      cases n with
      | zero => omega
      | succ n =>
        simp only [List.take_succ_cons, List.cons.injEq] at h
        simp only [List.length_cons] at ha hb
        simp only [lcp_len, h.1, if_true]
        have := ih b n (by omega) (by omega) h.2
        omega

/-- On terminated strings `loc` never returns the length of the longest
common prefix. -/
theorem loc_ne_lcp_len (a b : List Nat) (ha0 : ∀ x ∈ a, x ≠ 0) (hb0 : ∀ x ∈ b, x ≠ 0)
    (ha : a.length < 2 ^ 31) (hb : b.length < 2 ^ 31) :
    loc (cstr_of a) (cstr_of b) ≠ .ok (lcp_len a b : Int) := by
  rw [loc_cstr_of a b ha0 hb0 ha hb]
  intro h
  injection h with h
  split at h <;> omega

/-! ## Strings that `str_len` accepts -/

/-- When the loop of `str_len` returns `k` from a count of `k0`, the bytes it
passed are defined and not zero. -/
theorem str_len_loop_bytes_defined :
    ∀ (l : List (Option Nat)) (k0 k : Nat), str_len_loop l k0 = .ok k →
      k0 ≤ k ∧ ∀ i, i < k - k0 → ∃ b, l.get? i = some (some b) ∧ b ≠ 0 := by
  intro l
  induction l with
  | nil => intro k0 k h; simp [str_len_loop] at h
  | cons x l ih =>
    intro k0 k h
    cases x with
    | none => simp [str_len_loop] at h
    | some b =>
      simp only [str_len_loop] at h
      by_cases hb : b = 0
      · simp only [hb, if_true, Except.ok.injEq] at h
        subst h
        exact ⟨le_refl _, fun i hi => absurd hi (by omega)⟩
      · simp only [hb, if_false] at h
        obtain ⟨h1, h2⟩ := ih (k0 + 1) k h
        refine ⟨by omega, ?_⟩
        intro i hi
        cases i with
        | zero => exact ⟨b, rfl, hb⟩
        | succ i =>
          obtain ⟨c, hc, hc0⟩ := h2 i (by omega)
          exact ⟨c, by simpa using hc, hc0⟩

/-- The conversion to `int` never exceeds a natural number. -/
theorem to_int_le (k : Nat) : to_int k ≤ k := by
  unfold to_int INT_BITS
  norm_num
  omega

/-- A natural number whose conversion to `int` is not zero is not zero. -/
theorem to_int_zero_of_ne {k : Nat} (h : to_int k ≠ 0) : k ≠ 0 := by
  intro hk
  subst hk
  exact h (by decide)

/-- Below the value `str_len` returns, every byte of the string is defined
and not zero. -/
theorem str_len_bytes_defined {q : cptr} {n : Int} (h : str_len (some q) = .ok n) :
    ∀ i : Int, 0 ≤ i → i < n → ∃ b, load q i = .ok b ∧ b ≠ 0 := by
  simp only [str_len] at h
  by_cases hoff : q.off < 0
  · simp [hoff] at h
  · simp only [hoff, if_false] at h
    cases hk : str_len_loop (q.obj.drop q.off.toNat) 0 with
    | error e => simp [hk] at h
    | ok k =>
      simp only [hk, Except.ok.injEq] at h
      obtain ⟨-, h2⟩ := str_len_loop_bytes_defined _ 0 k hk
      intro i hi0 hin
      have hle := to_int_le k
      obtain ⟨b, hb, hb0⟩ := h2 i.toNat (by omega)
      refine ⟨b, ?_, hb0⟩
      have hneg : ¬ (q.off + i < 0) := by omega
      have hidx : (q.off + i).toNat = q.off.toNat + i.toNat := by omega
      simp only [load, load_raw, hneg, if_false, hidx]
      simp only [List.get?_eq_getElem?] at hb ⊢
      rw [List.getElem?_drop] at hb
      rw [hb]

/-- A string for which `str_len` returns a non-zero value has a defined first
byte. -/
theorem str_len_first_byte {q : cptr} {n : Int} (h : str_len (some q) = .ok n)
    (hn : n ≠ 0) : ∃ b, load q 0 = .ok b := by
  simp only [str_len] at h
  by_cases hoff : q.off < 0
  · simp [hoff] at h
  · simp only [hoff, if_false] at h
    cases hk : str_len_loop (q.obj.drop q.off.toNat) 0 with
    | error e => simp [hk] at h
    | ok k =>
      simp only [hk, Except.ok.injEq] at h
      have hk0 : k ≠ 0 := to_int_zero_of_ne (by rw [h]; exact hn)
      obtain ⟨-, h2⟩ := str_len_loop_bytes_defined _ 0 k hk
      obtain ⟨b, hb, -⟩ := h2 0 (by omega)
      refine ⟨b, ?_⟩
      have hneg : ¬ (q.off + 0 < 0) := by omega
      have hidx : (q.off + 0).toNat = q.off.toNat + 0 := by omega
      simp only [load, load_raw, hneg, if_false, hidx]
      simp only [List.get?_eq_getElem?] at hb ⊢
      rw [List.getElem?_drop] at hb
      rw [hb]

/-- An empty string has `str_len` zero. -/
theorem str_len_of_empty {s : cstr} (h : str_bytes s = some []) :
    str_len s = .ok 0 := by
  cases s with
  | none => rfl
  | some q =>
    simp only [str_bytes] at h
    simp only [str_len]
    by_cases hoff : q.off < 0
    · simp [hoff] at h
    · simp only [hoff, if_false] at h ⊢
      cases hl : q.obj.drop q.off.toNat with
      | nil => simp [hl, str_bytes_loop] at h
      | cons x l =>
        rw [hl] at h
        cases x with
        | none => simp [str_bytes_loop] at h
        | some b =>
          by_cases hb : b = 0
          · subst hb
            simp [str_len_loop]
            decide
          · simp [str_bytes_loop, hb] at h

/-! ## What `node_insert` does at a Static node -/

/-- C11, failing input: at the Static node whose label `/profile` starts five
bytes into `/user/profile`, with the pattern `/profile`, the common prefix is
the whole label, yet `node_insert` splits the node: it becomes an ancestor
with one child, the old node.  At the label `/` with the pattern `/`, the
label being the start of its object, the split block reads the byte before
the label. -/
theorem node_insert_splits_whole_label :
    str_bytes tail_node.static_data = some (text "/profile") ∧
    str_bytes (lit_at "/user/profile" 5) = some (text "/profile") ∧
    lcp_len (text "/profile") (text "/profile") = (text "/profile").length ∧
    loc tail_node.static_data (lit_at "/user/profile" 5) = .ok (-1) ∧
    node_insert false tail_node (lit_at "/user/profile" 5)
      = .ok (tail_split (lit_at "/user/profile" 5)) ∧
    (tail_split (lit_at "/user/profile" 5)).node.nodes_len = 1 ∧
    (tail_split (lit_at "/user/profile" 5)).node.nodes
      = [some { tail_node with static_data := lit_at "/user/profile" 4 }] ∧
    node_insert false (node_init .node_static (lit "/")) (lit "/") = .error .oob :=
  ⟨rfl, rfl, rfl, rfl, rfl, rfl, rfl, rfl⟩

/-- C12, failing input: `node_insert` of `/user/settings` at the node labelled
`/user/profile` leaves an ancestor whose label is five indeterminate bytes,
not `/user/`, and a child whose label is `/profile`, not `profile`; the
ancestor is Static, has no payload and one child, and the child holds the
original kind, payload, indices, children and parameter names. -/
theorem node_insert_split_labels :
    node_insert false profile_node (lit "/user/settings") = .ok profile_split ∧
    profile_split.node.static_data = some ⟨List.replicate 5 none, 0⟩ ∧
    str_bytes profile_split.node.static_data ≠ some (text "/user/") ∧
    profile_split.node.kind = .node_static ∧
    profile_split.node.data = none ∧
    profile_split.node.nodes_len = 1 ∧
    (∃ c, profile_split.node.nodes = [some c] ∧
      str_bytes c.static_data = some (text "/profile") ∧
      str_bytes c.static_data ≠ some (text "profile") ∧
      c.kind = profile_node.kind ∧ c.data = profile_node.data ∧
      c.indices = profile_node.indices ∧ c.nodes = profile_node.nodes ∧
      c.params = profile_node.params) :=
  ⟨rfl, rfl, by decide, rfl, rfl, rfl,
    ⟨_, rfl, rfl, by decide, rfl, rfl, rfl, rfl, rfl⟩⟩

/-- C13, failing input: at the Static node labelled `/profile`, with the
pattern `/profile` (equal to the label) and with the pattern `/pro` (a proper
prefix of it), `loc` returns -1, which is not the pattern length, and
`node_insert` goes on to `node_add_node_static` and returns `NULL`, not the
node. -/
theorem node_insert_consumed_pattern :
    str_bytes (lit_at "/user/pro" 5) = some (text "/pro") ∧
    loc tail_node.static_data (lit_at "/user/pro" 5) = .ok (-1) ∧
    str_len (lit_at "/user/pro" 5) = .ok 4 ∧
    (node_insert false tail_node (lit_at "/user/pro" 5)).map (fun r => r.ret)
      = .ok .null ∧
    loc tail_node.static_data (lit_at "/user/profile" 5) = .ok (-1) ∧
    str_len (lit_at "/user/profile" 5) = .ok 8 ∧
    (node_insert false tail_node (lit_at "/user/profile" 5)).map (fun r => r.ret)
      = .ok .null :=
  ⟨rfl, rfl, rfl, rfl, rfl, rfl, rfl⟩

/-- Every node produced by `node_init` satisfies the indices invariant. -/
theorem node_init_indices_match (kind : node_kind) (static_data : cstr) :
    indices_match (node_init kind static_data) := by
  refine ⟨rfl, rfl, ?_⟩
  intro i h
  exact absurd h (Nat.not_lt_zero i)

/-- C15, failing input: the node labelled `/user/profile` comes from
`node_init` and satisfies the indices invariant; after `node_insert` of
`/user/settings` its `indices` are an indeterminate byte followed by the
terminator, while its one child is labelled `/profile`: the invariant is
broken. -/
theorem node_insert_breaks_indices :
    indices_match profile_node ∧
    node_insert false profile_node (lit "/user/settings") = .ok profile_split ∧
    profile_split.node.indices = some ⟨[none, some 0], 0⟩ ∧
    ¬ indices_match profile_split.node := by
  refine ⟨node_init_indices_match _ _, rfl, rfl, ?_⟩
  intro h
  exact absurd h.1 (by decide)

/-- C16: for every Static node whose label is absent or empty and every
pattern `p`, `node_insert` returns the node it received, whose label is now
`p` and whose kind, payload, indices, children and parameter names are
unchanged; the pattern is left as it was. -/
theorem node_insert_fresh (z : Bool) (nd : node) (p : cstr)
    (hk : nd.kind = .node_static)
    (he : nd.static_data = none ∨ str_bytes nd.static_data = some []) :
    ∃ r, node_insert z nd p = .ok r ∧ r.ret = .arg ∧ r.p = p ∧
      r.node.static_data = p ∧ r.node.kind = nd.kind ∧ r.node.data = nd.data ∧
      r.node.indices = nd.indices ∧ r.node.nodes = nd.nodes ∧
      r.node.nodes_len = nd.nodes_len ∧ r.node.params = nd.params ∧
      r.node.params_len = nd.params_len := by
  have h0 : str_len nd.static_data = .ok 0 := by
    rcases he with he | he
    · rw [he]; rfl
    · exact str_len_of_empty he
  refine ⟨⟨{ nd with static_data := p }, p, .arg⟩, ?_, rfl, rfl, rfl, rfl, rfl, rfl,
    rfl, rfl, rfl, rfl⟩
  simp [node_insert, hk, bind, Except.bind, h0]

/-- Witness for C16: a fresh Static node without label, and one with the empty
label, each receiving the pattern `/user`. -/
theorem node_insert_fresh_witness :
    (∃ r, node_insert false (node_init .node_static none) (lit "/user") = .ok r ∧
      r.ret = .arg ∧ r.node.static_data = lit "/user" ∧ r.node.nodes_len = 0) ∧
    (∃ r, node_insert false (node_init .node_static (lit "")) (lit "/user") = .ok r ∧
      r.ret = .arg ∧ r.node.static_data = lit "/user" ∧ r.node.nodes_len = 0) := by
  obtain ⟨r, h1, h2, -, h3, -, -, -, -, h4, -, -⟩ :=
    node_insert_fresh false (node_init .node_static none) (lit "/user") rfl (Or.inl rfl)
  obtain ⟨r2, g1, g2, -, g3, -, -, -, -, g4, -, -⟩ :=
    node_insert_fresh false (node_init .node_static (lit "")) (lit "/user") rfl
      (Or.inr rfl)
  exact ⟨⟨r, h1, h2, h3, h4⟩, ⟨r2, g1, g2, g3, g4⟩⟩

/-- C17, failing input: `node_insert` of the pattern `/user/settings` at the
node labelled `/user/profile` overwrites the first five bytes of the pattern:
four become indeterminate and the fifth zero. -/
theorem node_insert_overwrites_pattern :
    node_insert false profile_node (lit "/user/settings") = .ok profile_split ∧
    profile_split.p ≠ lit "/user/settings" ∧
    str_bytes (lit "/user/settings") = some (text "/user/settings") ∧
    str_bytes profile_split.p = none ∧
    profile_split.p
      = some ⟨[none, none, none, none, some 0] ++
          ((text "/settings").map some ++ [some 0]), 0⟩ :=
  ⟨rfl, by decide, rfl, rfl, rfl⟩

/-! ## Adding a child -/

/-- C14, as stated, fails: `node_add_node_static` of the label `user` at the
root of a fresh tree returns no child. -/
theorem node_add_node_static_no_child :
    ¬ ∃ r, node_add_node_static (path_tree_init 4).root (lit "user") = .ok r ∧
      r ≠ .null := by
  rintro ⟨r, h, hr⟩
  have h2 : node_add_node_static (path_tree_init 4).root (lit "user") = .ok .null := rfl
  rw [h2] at h
  injection h with h
  exact hr h.symm

/-- C14, amended: for every node and every non-empty label `s`,
`node_add_node_static` returns `NULL`; it appends no child, and the node that
reaches it through `node_insert` at a Parameter node is left as it was. -/
theorem node_add_node_static_null (nd : node) (s : cstr) (n : Int)
    (hn : str_len s = .ok n) (hne : n ≠ 0) :
    node_add_node_static nd s = .ok .null ∧
    ∀ z, nd.kind = .node_parameter → node_insert z nd s = .ok ⟨nd, s, .null⟩ := by
  have h1 : node_add_node_static nd s = .ok .null := by
    cases s with
    | none =>
      simp only [str_len, Except.ok.injEq] at hn
      exact absurd hn.symm hne
    | some q =>
      obtain ⟨b, hb⟩ := str_len_first_byte hn hne
      simp [node_add_node_static, hn, hne, hb, bind, Except.bind, _node_add_node]
  refine ⟨h1, ?_⟩
  intro z hk
  simp [node_insert, hk, h1, bind, Except.bind]

/-- Witness for C14, amended: the label `user` at the root of a fresh tree and
at a Parameter node. -/
theorem node_add_node_static_null_witness :
    str_len (lit "user") = .ok 4 ∧
    node_add_node_static (path_tree_init 4).root (lit "user") = .ok .null ∧
    node_insert false (node_init .node_parameter (lit "id")) (lit "user")
      = .ok ⟨node_init .node_parameter (lit "id"), lit "user", .null⟩ :=
  ⟨rfl,
   (node_add_node_static_null (path_tree_init 4).root (lit "user") 4 rfl (by decide)).1,
   (node_add_node_static_null (node_init .node_parameter (lit "id")) (lit "user") 4 rfl
      (by decide)).2 false rfl⟩

/-! ## The helper `position` -/

/-- The loop of `position` over defined bytes: it returns -1 when the byte
does not occur in the range it scans, and otherwise the first index in the
range that holds it. -/
theorem position_loop_first (q : cptr) (c : Nat) :
    ∀ (k : Nat) (i : Int),
      (∀ j : Int, i ≤ j → j < i + k → ∃ b, load q j = .ok b) →
      ∃ r, position_loop q c i k = .ok r ∧
        ((r = -1 ∧ ∀ j : Int, i ≤ j → j < i + k → load q j ≠ .ok c) ∨
         (i ≤ r ∧ r < i + k ∧ load q r = .ok c ∧
           ∀ j : Int, i ≤ j → j < r → load q j ≠ .ok c)) := by
  intro k
  induction k with
  | zero =>
    intro i _
    exact ⟨-1, rfl, Or.inl ⟨rfl, fun j h1 h2 => absurd h2 (by push_cast; omega)⟩⟩
  | succ k ih =>
    intro i hdef
    obtain ⟨b, hb⟩ := hdef i (le_refl _) (by push_cast; omega)
    simp only [position_loop, bind, Except.bind, hb]
    by_cases hbc : b = c
    · refine ⟨i, by simp [hbc], Or.inr ⟨le_refl _, by push_cast; omega, by rw [hb, hbc], ?_⟩⟩
      intro j h1 h2
      omega
    · obtain ⟨r, hr, hcase⟩ := ih (i + 1) (fun j h1 h2 => hdef j (by omega) (by push_cast; omega))
      refine ⟨r, by simp [hbc, hr], ?_⟩
      have hi : load q i ≠ .ok c := by
        rw [hb]
        intro h
        injection h with h
        exact hbc h
      rcases hcase with ⟨h1, h2⟩ | ⟨h1, h2, h3, h4⟩
      · left
        refine ⟨h1, ?_⟩
        intro j hj1 hj2
        by_cases hji : j = i
        · rw [hji]; exact hi
        · exact h2 j (by omega) (by push_cast at hj2; omega)
      · right
        refine ⟨by omega, by push_cast; omega, h3, ?_⟩
        intro j hj1 hj2
        by_cases hji : j = i
        · rw [hji]; exact hi
        · exact h4 j (by omega) hj2

/-- C19: for every string `p` that `str_len` accepts, with `n` the value of
`str_len(p)`, and every byte `c`: `position(p, c)` returns a value; the value
is -1 exactly when `c` is not among the first `n` bytes of `p`, which is the
case for a missing `p`, for an empty `p` and for `c` the terminator; otherwise
it is the smallest index `i` with `0 <= i < n` and `p[i] = c`. -/
theorem position_first (p : cstr) (c : Nat) (n : Int) (hn : str_len p = .ok n) :
    ∃ r, position p c = .ok r ∧
      (r = -1 ↔ ∀ q, p = some q → ∀ i : Int, 0 ≤ i → i < n → load q i ≠ .ok c) ∧
      (r ≠ -1 → ∃ q, p = some q ∧ 0 ≤ r ∧ r < n ∧ load q r = .ok c ∧
        ∀ j : Int, 0 ≤ j → j < r → load q j ≠ .ok c) ∧
      (p = none → r = -1) ∧ (n = 0 → r = -1) ∧ (c = 0 → r = -1) := by
  cases p with
  | none =>
    refine ⟨-1, ?_, ?_, ?_, ?_, ?_, ?_⟩
    · simp [position, hn, bind, Except.bind]
    · simp
    · intro h; exact absurd rfl h
    · intro _; rfl
    · intro _; rfl
    · intro _; rfl
  | some q =>
    have hdef := str_len_bytes_defined hn
    by_cases hn0 : n = 0
    · refine ⟨-1, ?_, ?_, ?_, ?_, ?_, ?_⟩
      · simp [position, hn, hn0, bind, Except.bind]
      · constructor
        · intro _ q1 _ i h1 h2
          omega
        · intro _; rfl
      · intro h; exact absurd rfl h
      · intro h; cases h
      · intro _; rfl
      · intro _; rfl
    · have hpos : position (some q) c = position_loop q c 0 n.toNat := by
        simp [position, hn, hn0, bind, Except.bind]
      obtain ⟨r, hr, hcase⟩ := position_loop_first q c n.toNat 0
        (fun j h1 h2 => by
          obtain ⟨b, hb, -⟩ := hdef j h1 (by omega)
          exact ⟨b, hb⟩)
      refine ⟨r, by rw [hpos, hr], ?_, ?_, ?_, ?_, ?_⟩
      · constructor
        · intro hr1 q1 hq1 i h1 h2
          injection hq1 with hq1
          subst hq1
          rcases hcase with ⟨-, h⟩ | ⟨h, -, -, -⟩
          · exact h i h1 (by omega)
          · omega
        · intro h
          rcases hcase with ⟨h1, -⟩ | ⟨h1, h2, h3, -⟩
          · exact h1
          · exact absurd h3 (h q rfl r h1 (by omega))
      · intro hr1
        rcases hcase with ⟨h1, -⟩ | ⟨h1, h2, h3, h4⟩
        · exact absurd h1 hr1
        · exact ⟨q, rfl, h1, by omega, h3, fun j hj1 hj2 => h4 j hj1 hj2⟩
      · intro h; cases h
      · intro h; exact absurd h hn0
      · intro hc
        rcases hcase with ⟨h1, -⟩ | ⟨h1, h2, h3, -⟩
        · exact h1
        · obtain ⟨b, hb, hb0⟩ := hdef r h1 (by omega)
          rw [hb] at h3
          injection h3 with h3
          exact absurd (h3.trans hc) hb0

/-- Witness for C19: in `/user/:id` the colon is first found at index 6, and
the star is not found. -/
theorem position_first_witness :
    str_len (lit "/user/:id") = .ok 9 ∧
    position (lit "/user/:id") 58 = .ok 6 ∧
    position (lit "/user/:id") 42 = .ok (-1) ∧
    (∃ r, position (lit "/user/:id") 58 = .ok r ∧
      (r ≠ -1 → ∃ q, lit "/user/:id" = some q ∧ 0 ≤ r ∧ r < 9 ∧ load q r = .ok 58 ∧
        ∀ j : Int, 0 ≤ j → j < r → load q j ≠ .ok 58)) := by
  obtain ⟨r, h1, -, h3, -⟩ := position_first (lit "/user/:id") 58 9 rfl
  exact ⟨rfl, rfl, rfl, ⟨r, h1, h3⟩⟩

/-! ## The helper `str_cpy` -/

/-- Reading at a natural index through a pointer with a non-negative offset. -/
theorem load_raw_nat (p : cptr) (i : Nat) (h0 : 0 ≤ p.off) :
    load_raw p i =
      match p.obj[p.off.toNat + i]? with
      | none => .error .oob
      | some b => .ok b := by
  have hneg : ¬ (p.off + (i : Int) < 0) := by omega
  have hidx : (p.off + (i : Int)).toNat = p.off.toNat + i := by omega
  simp only [load_raw, hneg, if_false, hidx, List.get?_eq_getElem?]

/-- Writing at a natural index inside the object. -/
theorem store_nat (p : cptr) (i : Nat) (v : Option Nat) (h0 : 0 ≤ p.off)
    (h : p.off.toNat + i < p.obj.length) :
    store p i v = .ok ⟨p.obj.set (p.off.toNat + i) v, p.off⟩ := by
  have hneg : ¬ (p.off + (i : Int) < 0) := by omega
  have hidx : (p.off + (i : Int)).toNat = p.off.toNat + i := by omega
  simp only [store, hneg, if_false, hidx, h, if_true]

/-- The loop of `mem_set` inside the object: it sets `n` bytes from index `i`
on and no other byte. -/
theorem mem_set_loop_inside (c : Nat) :
    ∀ (n i : Nat) (d : cptr), 0 ≤ d.off → d.off.toNat + i + n ≤ d.obj.length →
      ∃ d1, mem_set_loop d c i n = .ok d1 ∧ d1.off = d.off ∧
        d1.obj.length = d.obj.length ∧
        ∀ j, d1.obj[j]? =
          if d.off.toNat + i ≤ j ∧ j < d.off.toNat + i + n then some (some (c % 256))
          else d.obj[j]? := by
  intro n
  induction n with
  | zero =>
    intro i d _ _
    refine ⟨d, rfl, rfl, rfl, ?_⟩
    intro j
    have : ¬ (d.off.toNat + i ≤ j ∧ j < d.off.toNat + i + 0) := by omega
    rw [if_neg this]
  | succ n ih =>
    intro i d h0 hlen
    simp only [mem_set_loop, bind, Except.bind,
      store_nat d i (some (c % 256)) h0 (by omega)]
    obtain ⟨d1, h1, h2, h3, h4⟩ :=
      ih (i + 1) ⟨d.obj.set (d.off.toNat + i) (some (c % 256)), d.off⟩ h0
        (by simp only [List.length_set]; omega)
    refine ⟨d1, h1, h2, by rw [h3, List.length_set], ?_⟩
    intro j
    rw [h4 j]
    simp only [List.getElem?_set]
    by_cases hj : d.off.toNat + i = j
    · subst hj
      have hlt : d.off.toNat + i < d.obj.length := by omega
      have ha : ¬ (d.off.toNat + (i + 1) ≤ d.off.toNat + i ∧
          d.off.toNat + i < d.off.toNat + (i + 1) + n) := by omega
      have hb : d.off.toNat + i ≤ d.off.toNat + i ∧
          d.off.toNat + i < d.off.toNat + i + (n + 1) := by omega
      simp [ha, hb, hlt]
    · by_cases hr : d.off.toNat + (i + 1) ≤ j ∧ j < d.off.toNat + (i + 1) + n
      · have hb : d.off.toNat + i ≤ j ∧ j < d.off.toNat + i + (n + 1) := by omega
        simp [hr, hb]
      · have hb : ¬ (d.off.toNat + i ≤ j ∧ j < d.off.toNat + i + (n + 1)) := by omega
        simp [hr, hb, hj]

/-- The loop of `mem_cpy` inside both objects: it copies `n` bytes from index
`i` on and changes no other byte. -/
theorem mem_cpy_loop_inside (s : cptr) (hs0 : 0 ≤ s.off) :
    ∀ (n i : Nat) (d : cptr), 0 ≤ d.off → d.off.toNat + i + n ≤ d.obj.length →
      s.off.toNat + i + n ≤ s.obj.length →
      ∃ d1, mem_cpy_loop d s i n = .ok d1 ∧ d1.off = d.off ∧
        d1.obj.length = d.obj.length ∧
        ∀ j, d1.obj[j]? =
          if d.off.toNat + i ≤ j ∧ j < d.off.toNat + i + n
          then s.obj[s.off.toNat + (j - d.off.toNat)]?
          else d.obj[j]? := by
  intro n
  induction n with
  | zero =>
    intro i d _ _ _
    refine ⟨d, rfl, rfl, rfl, ?_⟩
    intro j
    have : ¬ (d.off.toNat + i ≤ j ∧ j < d.off.toNat + i + 0) := by omega
    rw [if_neg this]
  | succ n ih =>
    intro i d h0 hlen hslen
    have hsi : s.off.toNat + i < s.obj.length := by omega
    have hread : load_raw s i = .ok (s.obj[s.off.toNat + i]) := by
      rw [load_raw_nat s i hs0, List.getElem?_eq_getElem hsi]
    simp only [mem_cpy_loop, bind, Except.bind, hread,
      store_nat d i _ h0 (by omega)]
    obtain ⟨d1, h1, h2, h3, h4⟩ :=
      ih (i + 1) ⟨d.obj.set (d.off.toNat + i) (s.obj[s.off.toNat + i]), d.off⟩ h0
        (by simp only [List.length_set]; omega) (by omega)
    refine ⟨d1, h1, h2, by rw [h3, List.length_set], ?_⟩
    intro j
    rw [h4 j]
    simp only [List.getElem?_set]
    by_cases hj : d.off.toNat + i = j
    · subst hj
      have hlt : d.off.toNat + i < d.obj.length := by omega
      have ha : ¬ (d.off.toNat + (i + 1) ≤ d.off.toNat + i ∧
          d.off.toNat + i < d.off.toNat + (i + 1) + n) := by omega
      have hb : d.off.toNat + i ≤ d.off.toNat + i ∧
          d.off.toNat + i < d.off.toNat + i + (n + 1) := by omega
      have hsub : d.off.toNat + i - d.off.toNat = i := by omega
      simp [ha, hb, hlt, hsub, List.getElem?_eq_getElem hsi]
    · by_cases hr : d.off.toNat + (i + 1) ≤ j ∧ j < d.off.toNat + (i + 1) + n
      · have hb : d.off.toNat + i ≤ j ∧ j < d.off.toNat + i + (n + 1) := by omega
        simp [hr, hb]
      · have hb : ¬ (d.off.toNat + i ≤ j ∧ j < d.off.toNat + i + (n + 1)) := by omega
        simp [hr, hb, hj]

/-- The function `str_cpy` on `dest` and `src` in distinct objects, `dest`
with room for `len + 1` bytes and `src` with `len` readable bytes: for
`len > 0` it returns `dest` with `dest[0..len)` equal to `src[0..len)` and
`dest[len]` the terminator, and no byte of `dest` outside the indices `0..len`
is changed; for `len = 0` it returns `dest` with no byte changed; if `dest` or
`src` is missing it returns `NULL` and writes nothing. -/
theorem str_cpy_distinct (d s : cptr) (len : Nat)
    (hd0 : 0 ≤ d.off) (hs0 : 0 ≤ s.off)
    (hd : d.off.toNat + len + 1 ≤ d.obj.length)
    (hs : s.off.toNat + len ≤ s.obj.length)
    (hsz : d.obj.length < 2 ^ SIZE_BITS) :
    (0 < len →
      ∃ d1, str_cpy (some d) (some s) len = .ok ⟨some d1, some d1⟩ ∧
        d1.off = d.off ∧ d1.obj.length = d.obj.length ∧
        (∀ i : Nat, i < len →
          load_raw d1 i = load_raw s i ∧ ∃ b, load_raw s i = .ok b) ∧
        load d1 len = .ok 0 ∧
        (∀ j, (j < d.off.toNat ∨ d.off.toNat + len < j) → d1.obj[j]? = d.obj[j]?)) ∧
    str_cpy (some d) (some s) 0 = .ok ⟨some d, some d⟩ ∧
    (∀ dest n, str_cpy dest none n = .ok ⟨none, dest⟩) ∧
    (∀ src n, str_cpy none src n = .ok ⟨none, none⟩) := by
  refine ⟨?_, rfl, ?_, ?_⟩
  · intro hlen
    have hmod : (len + 1) % 2 ^ SIZE_BITS = len + 1 :=
      Nat.mod_eq_of_lt (by omega)
    obtain ⟨d1, h1, h2, h3, h4⟩ := mem_set_loop_inside 0 (len + 1) 0 d hd0 (by omega)
    obtain ⟨d2, g1, g2, g3, g4⟩ := mem_cpy_loop_inside s hs0 len 0 d1 (by rw [h2]; exact hd0)
      (by rw [h2, h3]; omega) (by omega)
    have hlen0 : len ≠ 0 := by omega
    refine ⟨d2, ?_, by rw [g2, h2], by rw [g3, h3], ?_, ?_, ?_⟩
    · simp only [str_cpy, hlen0, if_false, bind, Except.bind, hmod, mem_set, mem_cpy, h1, g1]
    · intro i hi
      have hsi : s.off.toNat + i < s.obj.length := by omega
      have hin : d1.off.toNat + 0 ≤ d.off.toNat + i ∧
          d.off.toNat + i < d1.off.toNat + 0 + len := by rw [h2]; omega
      have hsub : d.off.toNat + i - d1.off.toNat = i := by rw [h2]; omega
      have hoff2 : d2.off = d.off := by rw [g2, h2]
      have hd2 : 0 ≤ d2.off := by rw [hoff2]; exact hd0
      constructor
      · rw [load_raw_nat d2 i hd2, load_raw_nat s i hs0, hoff2, g4, if_pos hin, hsub]
      · rw [load_raw_nat s i hs0, List.getElem?_eq_getElem hsi]
        exact ⟨_, rfl⟩
    · have hoff2 : d2.off = d.off := by rw [g2, h2]
      have hd2 : 0 ≤ d2.off := by rw [hoff2]; exact hd0
      have hout : ¬ (d1.off.toNat + 0 ≤ d.off.toNat + len ∧
          d.off.toNat + len < d1.off.toNat + 0 + len) := by rw [h2]; omega
      have hin : d.off.toNat + 0 ≤ d.off.toNat + len ∧
          d.off.toNat + len < d.off.toNat + 0 + (len + 1) := by omega
      simp only [load]
      rw [load_raw_nat d2 len hd2, hoff2, g4, if_neg hout, h4, if_pos hin]
    · intro j hj
      have hout : ¬ (d1.off.toNat + 0 ≤ j ∧ j < d1.off.toNat + 0 + len) := by
        rw [h2]; omega
      have hout1 : ¬ (d.off.toNat + 0 ≤ j ∧ j < d.off.toNat + 0 + (len + 1)) := by
        omega
      rw [g4, if_neg hout, h4, if_neg hout1]
  · intro dest n
    cases dest <;> rfl
  · intro src n
    rfl

/-- The loop of `mem_cpy` with both pointers into one object, the range
written and the range read lying apart: it copies `n` bytes from index `i` on
and changes no other byte. -/
theorem mem_cpy_in_loop_apart (src : Int) (hs0 : 0 ≤ src) :
    ∀ (n i : Nat) (d : cptr), 0 ≤ d.off → d.off.toNat + i + n ≤ d.obj.length →
      src.toNat + i + n ≤ d.obj.length →
      (src.toNat + (i + n) ≤ d.off.toNat ∨ d.off.toNat + (i + n) ≤ src.toNat) →
      ∃ d1, mem_cpy_in_loop d src i n = .ok d1 ∧ d1.off = d.off ∧
        d1.obj.length = d.obj.length ∧
        ∀ j, d1.obj[j]? =
          if d.off.toNat + i ≤ j ∧ j < d.off.toNat + i + n
          then d.obj[src.toNat + (j - d.off.toNat)]?
          else d.obj[j]? := by
  intro n
  induction n with
  | zero =>
    intro i d _ _ _ _
    refine ⟨d, rfl, rfl, rfl, ?_⟩
    intro j
    have : ¬ (d.off.toNat + i ≤ j ∧ j < d.off.toNat + i + 0) := by omega
    rw [if_neg this]
  | succ n ih =>
    intro i d h0 hlen hslen hapart
    have hsi : src.toNat + i < d.obj.length := by omega
    have hread : load_raw ⟨d.obj, src⟩ i = .ok (d.obj[src.toNat + i]) := by
      rw [load_raw_nat ⟨d.obj, src⟩ i hs0]
      simp only [List.getElem?_eq_getElem hsi]
    simp only [mem_cpy_in_loop, bind, Except.bind, hread,
      store_nat d i _ h0 (by omega)]
    obtain ⟨d1, h1, h2, h3, h4⟩ :=
      ih (i + 1) ⟨d.obj.set (d.off.toNat + i) (d.obj[src.toNat + i]), d.off⟩ h0
        (by simp only [List.length_set]; omega)
        (by simp only [List.length_set]; omega)
        (by
          show src.toNat + (i + 1 + n) ≤ d.off.toNat ∨ d.off.toNat + (i + 1 + n) ≤ src.toNat
          omega)
    refine ⟨d1, h1, h2, by rw [h3, List.length_set], ?_⟩
    intro j
    rw [h4 j]
    simp only [List.getElem?_set]
    by_cases hj : d.off.toNat + i = j
    · subst hj
      have hlt : d.off.toNat + i < d.obj.length := by omega
      have ha : ¬ (d.off.toNat + (i + 1) ≤ d.off.toNat + i ∧
          d.off.toNat + i < d.off.toNat + (i + 1) + n) := by omega
      have hb : d.off.toNat + i ≤ d.off.toNat + i ∧
          d.off.toNat + i < d.off.toNat + i + (n + 1) := by omega
      have hsub : d.off.toNat + i - d.off.toNat = i := by omega
      simp [ha, hb, hlt, hsub, List.getElem?_eq_getElem hsi]
    · by_cases hr : d.off.toNat + (i + 1) ≤ j ∧ j < d.off.toNat + (i + 1) + n
      · have hb : d.off.toNat + i ≤ j ∧ j < d.off.toNat + i + (n + 1) := by omega
        have hne : ¬ (d.off.toNat + i = src.toNat + (j - d.off.toNat)) := by omega
        simp [hr, hb, hne]
      · have hb : ¬ (d.off.toNat + i ≤ j ∧ j < d.off.toNat + i + (n + 1)) := by omega
        simp [hr, hb, hj]

/-- The function `str_cpy` on `dest` and `src` in one object, the bytes
`dest[0..len]` and `src[0..len)` lying apart: for `len > 0` it returns `dest`
with `dest[0..len)` equal to `src[0..len)`, which is left as it was, and
`dest[len]` the terminator, and no byte of the object outside `dest[0..len]`
is changed. -/
theorem str_cpy_in_apart (d : cptr) (src : Int) (len : Nat)
    (hd0 : 0 ≤ d.off) (hs0 : 0 ≤ src)
    (hd : d.off.toNat + len + 1 ≤ d.obj.length)
    (hs : src.toNat + len ≤ d.obj.length)
    (hsz : d.obj.length < 2 ^ SIZE_BITS)
    (hapart : src.toNat + len ≤ d.off.toNat ∨ d.off.toNat + len + 1 ≤ src.toNat)
    (hlen : 0 < len) :
    ∃ d1, str_cpy_in d src len = .ok ⟨some d1, some d1⟩ ∧
      d1.off = d.off ∧ d1.obj.length = d.obj.length ∧
      (∀ i : Nat, i < len →
        load_raw d1 i = load_raw ⟨d.obj, src⟩ i ∧
        load_raw ⟨d1.obj, src⟩ i = load_raw ⟨d.obj, src⟩ i ∧
        ∃ b, load_raw ⟨d.obj, src⟩ i = .ok b) ∧
      load d1 len = .ok 0 ∧
      (∀ j, (j < d.off.toNat ∨ d.off.toNat + len < j) → d1.obj[j]? = d.obj[j]?) := by
  have hmod : (len + 1) % 2 ^ SIZE_BITS = len + 1 :=
    Nat.mod_eq_of_lt (by omega)
  obtain ⟨d1, h1, h2, h3, h4⟩ := mem_set_loop_inside 0 (len + 1) 0 d hd0 (by omega)
  obtain ⟨d2, g1, g2, g3, g4⟩ := mem_cpy_in_loop_apart src hs0 len 0 d1
    (by rw [h2]; exact hd0) (by rw [h2, h3]; omega) (by rw [h3]; omega)
    (by rw [h2]; omega)
  have hlen0 : len ≠ 0 := by omega
  have hoff2 : d2.off = d.off := by rw [g2, h2]
  have hd2 : 0 ≤ d2.off := by rw [hoff2]; exact hd0
  -- the source bytes survive `mem_set` and `mem_cpy`
  have hsrc1 : ∀ i : Nat, i < len → d1.obj[src.toNat + i]? = d.obj[src.toNat + i]? := by
    intro i hi
    have hout : ¬ (d.off.toNat + 0 ≤ src.toNat + i ∧
        src.toNat + i < d.off.toNat + 0 + (len + 1)) := by omega
    rw [h4, if_neg hout]
  have hsrc2 : ∀ i : Nat, i < len → d2.obj[src.toNat + i]? = d.obj[src.toNat + i]? := by
    intro i hi
    have hout : ¬ (d1.off.toNat + 0 ≤ src.toNat + i ∧
        src.toNat + i < d1.off.toNat + 0 + len) := by rw [h2]; omega
    rw [g4, if_neg hout, hsrc1 i hi]
  refine ⟨d2, ?_, hoff2, by rw [g3, h3], ?_, ?_, ?_⟩
  · simp only [str_cpy_in, hlen0, if_false, bind, Except.bind, hmod, mem_set, mem_cpy_in,
      h1, g1]
  · intro i hi
    have hsi : src.toNat + i < d.obj.length := by omega
    have hin : d1.off.toNat + 0 ≤ d.off.toNat + i ∧
        d.off.toNat + i < d1.off.toNat + 0 + len := by rw [h2]; omega
    have hsub : d.off.toNat + i - d1.off.toNat = i := by rw [h2]; omega
    refine ⟨?_, ?_, ?_⟩
    · rw [load_raw_nat d2 i hd2, load_raw_nat ⟨d.obj, src⟩ i hs0, hoff2, g4, if_pos hin,
        hsub, hsrc1 i hi]
    · rw [load_raw_nat ⟨d2.obj, src⟩ i hs0, load_raw_nat ⟨d.obj, src⟩ i hs0]
      simp only [hsrc2 i hi]
    · rw [load_raw_nat ⟨d.obj, src⟩ i hs0]
      simp only [List.getElem?_eq_getElem hsi]
      exact ⟨_, rfl⟩
  · have hout : ¬ (d1.off.toNat + 0 ≤ d.off.toNat + len ∧
        d.off.toNat + len < d1.off.toNat + 0 + len) := by rw [h2]; omega
    have hin : d.off.toNat + 0 ≤ d.off.toNat + len ∧
        d.off.toNat + len < d.off.toNat + 0 + (len + 1) := by omega
    simp only [load]
    rw [load_raw_nat d2 len hd2, hoff2, g4, if_neg hout, h4, if_pos hin]
  · intro j hj
    have hout : ¬ (d1.off.toNat + 0 ≤ j ∧ j < d1.off.toNat + 0 + len) := by
      rw [h2]; omega
    have hout1 : ¬ (d.off.toNat + 0 ≤ j ∧ j < d.off.toNat + 0 + (len + 1)) := by
      omega
    rw [g4, if_neg hout, h4, if_neg hout1]

/-- C20, as stated, fails for overlapping `dest` and `src`: in the buffer
`abcdef`, `str_cpy(buf, buf + 2, 3)` leaves `dest[0..3)` as 0, 0, `e`, which is
neither what `src[0..3)` held (`cde`) nor what it holds afterwards; and in the
buffer `abc`, `str_cpy(buf, buf, 3)` leaves `dest[0..3)` all zero. -/
theorem str_cpy_overlap_fails :
    ¬ str_cpy_in_copies ⟨(text "abcdef").map some ++ [some 0], 0⟩ 2 3 ∧
    ¬ str_cpy_in_copies ⟨(text "abc").map some ++ [some 0], 0⟩ 0 3 ∧
    str_cpy_in ⟨(text "abcdef").map some ++ [some 0], 0⟩ 2 3
      = .ok ⟨some ⟨[some 0, some 0, some 101, some 0, some 101, some 102, some 0], 0⟩,
             some ⟨[some 0, some 0, some 101, some 0, some 101, some 102, some 0], 0⟩⟩ ∧
    str_cpy_in ⟨(text "abc").map some ++ [some 0], 0⟩ 0 3
      = .ok ⟨some ⟨[some 0, some 0, some 0, some 0], 0⟩,
             some ⟨[some 0, some 0, some 0, some 0], 0⟩⟩ := by
  refine ⟨?_, ?_, rfl, rfl⟩
  · rintro ⟨d1, h, hcopy, -⟩
    have hval : str_cpy_in ⟨(text "abcdef").map some ++ [some 0], 0⟩ 2 3
        = .ok ⟨some ⟨[some 0, some 0, some 101, some 0, some 101, some 102, some 0], 0⟩,
               some ⟨[some 0, some 0, some 101, some 0, some 101, some 102, some 0], 0⟩⟩ :=
      rfl
    rw [hval] at h
    injection h with h
    injection h with h1 _
    injection h1 with h1
    subst h1
    exact absurd (hcopy 0 (by decide)) (by decide)
  · rintro ⟨d1, h, hcopy, -⟩
    have hval : str_cpy_in ⟨(text "abc").map some ++ [some 0], 0⟩ 0 3
        = .ok ⟨some ⟨[some 0, some 0, some 0, some 0], 0⟩,
               some ⟨[some 0, some 0, some 0, some 0], 0⟩⟩ := rfl
    rw [hval] at h
    injection h with h
    injection h with h1 _
    injection h1 with h1
    subst h1
    exact absurd (hcopy 0 (by decide)) (by decide)

/-- C20, amended: for non-missing `dest` and `src`, `dest` with room for
`len + 1` bytes and `src` with `len` readable bytes, such that the bytes
`dest[0..len]` and `src[0..len)` do not overlap (they lie in distinct objects,
or apart in one object), and every `len > 0`, `str_cpy` returns `dest` with
`dest[0..len)` equal to `src[0..len)` and `dest[len]` the terminator, and
writes no byte outside `dest[0..len]`; for `len = 0` it returns `dest` with no
byte changed; if `dest` or `src` is missing it returns `NULL` and writes
nothing. -/
theorem str_cpy_separate (d s : cptr) (src : Int) (len : Nat)
    (hd0 : 0 ≤ d.off) (hd : d.off.toNat + len + 1 ≤ d.obj.length)
    (hsz : d.obj.length < 2 ^ SIZE_BITS) :
    (0 ≤ s.off → s.off.toNat + len ≤ s.obj.length → 0 < len →
      ∃ d1, str_cpy (some d) (some s) len = .ok ⟨some d1, some d1⟩ ∧
        d1.off = d.off ∧ d1.obj.length = d.obj.length ∧
        (∀ i : Nat, i < len →
          load_raw d1 i = load_raw s i ∧ ∃ b, load_raw s i = .ok b) ∧
        load d1 len = .ok 0 ∧
        (∀ j, (j < d.off.toNat ∨ d.off.toNat + len < j) → d1.obj[j]? = d.obj[j]?)) ∧
    (0 ≤ src → src.toNat + len ≤ d.obj.length →
      (src.toNat + len ≤ d.off.toNat ∨ d.off.toNat + len + 1 ≤ src.toNat) → 0 < len →
      ∃ d1, str_cpy_in d src len = .ok ⟨some d1, some d1⟩ ∧
        d1.off = d.off ∧ d1.obj.length = d.obj.length ∧
        (∀ i : Nat, i < len →
          load_raw d1 i = load_raw ⟨d.obj, src⟩ i ∧
          load_raw ⟨d1.obj, src⟩ i = load_raw ⟨d.obj, src⟩ i ∧
          ∃ b, load_raw ⟨d.obj, src⟩ i = .ok b) ∧
        load d1 len = .ok 0 ∧
        (∀ j, (j < d.off.toNat ∨ d.off.toNat + len < j) → d1.obj[j]? = d.obj[j]?)) ∧
    str_cpy (some d) (some s) 0 = .ok ⟨some d, some d⟩ ∧
    str_cpy_in d src 0 = .ok ⟨some d, some d⟩ ∧
    (∀ dest n, str_cpy dest none n = .ok ⟨none, dest⟩) ∧
    (∀ src1 n, str_cpy none src1 n = .ok ⟨none, none⟩) := by
  refine ⟨?_, ?_, rfl, rfl, ?_, ?_⟩
  · intro hs0 hs hlen
    exact (str_cpy_distinct d s len hd0 hs0 hd hs hsz).1 hlen
  · intro hs0 hs hapart hlen
    exact str_cpy_in_apart d src len hd0 hs0 hd hs hsz hapart hlen
  · intro dest n
    cases dest <;> rfl
  · intro src1 n
    rfl

/-- Witness for C20, amended: copying three bytes of `user` into a buffer of
six, and copying the three bytes `fgh` of the buffer `abcdefgh` to its
start. -/
theorem str_cpy_separate_witness :
    str_cpy (some ⟨[some 1, some 2, some 3, some 4, some 5, some 6], 0⟩) (lit "user") 3
      = .ok ⟨some ⟨[some 117, some 115, some 101, some 0, some 5, some 6], 0⟩,
             some ⟨[some 117, some 115, some 101, some 0, some 5, some 6], 0⟩⟩ ∧
    str_cpy_in ⟨(text "abcdefgh").map some ++ [some 0], 0⟩ 5 3
      = .ok ⟨some ⟨(text "fgh").map some ++ some 0 :: (text "efgh").map some ++ [some 0], 0⟩,
             some ⟨(text "fgh").map some ++ some 0 :: (text "efgh").map some ++ [some 0], 0⟩⟩ ∧
    (∃ d1, str_cpy (some ⟨[some 1, some 2, some 3, some 4, some 5, some 6], 0⟩)
          (lit "user") 3 = .ok ⟨some d1, some d1⟩ ∧ load d1 (3 : Nat) = .ok 0) ∧
    (∃ d1, str_cpy_in ⟨(text "abcdefgh").map some ++ [some 0], 0⟩ 5 3
          = .ok ⟨some d1, some d1⟩ ∧ load d1 (3 : Nat) = .ok 0) := by
  obtain ⟨d1, h1, -, -, -, h5, -⟩ :=
    (str_cpy_separate ⟨[some 1, some 2, some 3, some 4, some 5, some 6], 0⟩
      ⟨(text "user").map some ++ [some 0], 0⟩ 5 3 (by decide) (by decide)
      (by decide)).1 (by decide) (by decide) (by decide)
  obtain ⟨d2, g1, -, -, -, g5, -⟩ :=
    (str_cpy_separate ⟨(text "abcdefgh").map some ++ [some 0], 0⟩
      ⟨(text "user").map some ++ [some 0], 0⟩ 5 3 (by decide) (by decide)
      (by decide)).2.1 (by decide) (by decide) (by decide) (by decide)
  exact ⟨rfl, rfl, ⟨d1, h1, h5⟩, ⟨d2, g1, g5⟩⟩

/-- A label of `2 ^ 31` bytes has `str_len` equal to `-2 ^ 31`, by the
conversion to `int`. -/
theorem str_len_wraps (a : List Nat) (h0 : ∀ x ∈ a, x ≠ 0)
    (hlen : a.length = 2 ^ 31) : str_len (cstr_of a) = .ok (-2147483648) := by
  have hloop := str_len_loop_bytes a h0 0
  simp only [str_len, cstr_of]
  have hdrop : List.drop (0 : Int).toNat (List.map some a ++ [some 0])
      = List.map some a ++ [some 0] := rfl
  rw [if_neg (by decide), hdrop, hloop, hlen]
  rfl

/-- Failure without a split: at a Static node whose label has `2 ^ 31` bytes,
`str_len` of the label is negative, the guard `l < s_len` is false, and
`node_insert` of the pattern `a` standing one byte into `/a` returns `NULL`
with the node and the pattern as they were. -/
theorem node_insert_unsplit_failure (z : Bool) (a : List Nat) (h0 : ∀ x ∈ a, x ≠ 0)
    (hlen : a.length = 2 ^ 31) :
    str_len (node_init .node_static (cstr_of a)).static_data = .ok (-2147483648) ∧
    loc (node_init .node_static (cstr_of a)).static_data (lit_at "/a" 1) = .ok (-1) ∧
    node_insert z (node_init .node_static (cstr_of a)) (lit_at "/a" 1)
      = .ok ⟨node_init .node_static (cstr_of a), lit_at "/a" 1, .null⟩ := by
  have hs : str_len (cstr_of a) = .ok (-2147483648) := str_len_wraps a h0 hlen
  have hp : str_len (lit_at "/a" 1) = .ok 1 := rfl
  have hl : loc (cstr_of a) (lit_at "/a" 1) = .ok (-1) := by
    simp only [loc, bind, Except.bind, hs, hp]
    rfl
  have hq : ptr_add (lit_at "/a" 1) (-1) = .ok (lit_at "/a" 0) := rfl
  have ha : ∀ nd, node_add_node_static nd (lit_at "/a" 0) = .ok .null := fun _ => rfl
  refine ⟨hs, hl, ?_⟩
  simp only [node_insert, node_init, bind, Except.bind, hs, hl, hp, hq, ha]
  rfl

/-- Witness for C6, amended.  With a split: the node labelled `/user/profile`
and the pattern `/user/settings`, where `loc` returns 5, the label has 13
bytes and the pattern 14.  Without a split: the node whose label is
`long_label` and the pattern `a` standing one byte into `/a`. -/
theorem node_insert_failure_guarded_witness :
    (profile_node.kind = .node_static ∧
      str_len profile_node.static_data = .ok 13 ∧
      loc profile_node.static_data (lit "/user/settings") = .ok 5 ∧
      node_insert false profile_node (lit "/user/settings") = .ok profile_split ∧
      profile_split.ret = .null ∧
      (∃ m, str_len (lit "/user/settings") = .ok m ∧ (5 : Int) ≠ m) ∧
      profile_split.node.nodes_len = 1 ∧
      profile_split.node.nodes ≠ profile_node.nodes) ∧
    (str_len (node_init .node_static (cstr_of long_label)).static_data
        = .ok (-2147483648) ∧
      loc (node_init .node_static (cstr_of long_label)).static_data (lit_at "/a" 1)
        = .ok (-1) ∧
      node_insert false (node_init .node_static (cstr_of long_label)) (lit_at "/a" 1)
        = .ok ⟨node_init .node_static (cstr_of long_label), lit_at "/a" 1, .null⟩ ∧
      (∃ m, str_len (lit_at "/a" 1) = .ok m ∧ (-1 : Int) ≠ m)) := by
  have h := node_insert_failure_guarded false profile_node (lit "/user/settings") 13 5
    profile_split rfl rfl (by decide) rfl rfl rfl
  have hu := node_insert_unsplit_failure false long_label
    (fun x hx => by rw [List.eq_of_mem_replicate hx]; decide)
    (List.length_replicate _ _)
  have g := node_insert_failure_guarded false (node_init .node_static (cstr_of long_label))
    (lit_at "/a" 1) (-2147483648) (-1)
    ⟨node_init .node_static (cstr_of long_label), lit_at "/a" 1, .null⟩
    rfl hu.1 (by decide) hu.2.1 hu.2.2 rfl
  exact ⟨⟨rfl, rfl, rfl, rfl, rfl, h.1, (h.2.2.1 (by decide)).2.2.1,
    (h.2.2.1 (by decide)).2.2.2.2.2.2⟩, ⟨hu.1, hu.2.1, hu.2.2, g.1⟩⟩

end PathTree

/-! ## Byte codecs -/

namespace Varela

/-- Below `2 ^ k`, or-ing with a value shifted left by `k` is adding it. -/
theorem or_shiftLeft_eq_add (x a k : Nat) (h : x < 2 ^ k) :
    x ||| (a <<< k) = x + a * 2 ^ k := by
  rw [Nat.shiftLeft_eq, Nat.lor_comm, Nat.mul_comm a, ← Nat.mul_add_lt_is_or h, Nat.add_comm]

/-- C18: for every 16-bit `n`, `u16_from_bytes` on the two bytes written by
`u16_to_bytes` yields `n`, and for every 32-bit `n`, `u32_from_bytes` on the
four bytes written by `u32_to_bytes` yields `n`; byte `i` holds bits `8i` to
`8i + 7` of `n`. -/
theorem bytes_roundtrip :
    (∀ (n : Nat) (array : List Nat), n < 2 ^ 16 → 2 ≤ array.length →
      ∃ out, u16_to_bytes n array = some out ∧ u16_from_bytes out = some n ∧
        out[0]? = some (n / 2 ^ 0 % 2 ^ 8) ∧ out[1]? = some (n / 2 ^ 8 % 2 ^ 8) ∧
        out.drop 2 = array.drop 2) ∧
    (∀ (n : Nat) (array : List Nat), n < 2 ^ 32 → 4 ≤ array.length →
      ∃ out, u32_to_bytes n array = some out ∧ u32_from_bytes out = some n ∧
        out[0]? = some (n / 2 ^ 0 % 2 ^ 8) ∧ out[1]? = some (n / 2 ^ 8 % 2 ^ 8) ∧
        out[2]? = some (n / 2 ^ 16 % 2 ^ 8) ∧ out[3]? = some (n / 2 ^ 24 % 2 ^ 8) ∧
        out.drop 4 = array.drop 4) := by
  constructor
  · intro n array hn hlen
    match array, hlen with
    | a :: b :: rest, _ =>
      refine ⟨to_u8 (n >>> 0) :: to_u8 (n >>> 8) :: rest, by simp [u16_to_bytes], ?_, ?_, ?_, ?_⟩
      · simp only [u16_from_bytes, List.set_cons_zero, List.set_cons_succ,
          List.getElem?_cons_zero, List.getElem?_cons_succ, to_u8, to_u16,
          Nat.shiftRight_zero, Nat.shiftLeft_zero, Nat.shiftRight_eq_div_pow]
        rw [or_shiftLeft_eq_add _ _ 8 (by omega)]
        congr 1
        omega
      · simp [to_u8]
      · simp [to_u8, Nat.shiftRight_eq_div_pow]
      · simp
  · intro n array hn hlen
    match array, hlen with
    | a :: b :: c :: d :: rest, _ =>
      refine ⟨to_u8 (n >>> 0) :: to_u8 (n >>> 8) :: to_u8 (n >>> 16) :: to_u8 (n >>> 24) :: rest,
        by simp [u32_to_bytes], ?_, ?_, ?_, ?_, ?_, ?_⟩
      · simp only [u32_from_bytes, List.set_cons_zero, List.set_cons_succ,
          List.getElem?_cons_zero, List.getElem?_cons_succ, to_u8, to_u32,
          Nat.shiftRight_zero, Nat.shiftLeft_zero, Nat.shiftRight_eq_div_pow,
          Nat.shiftLeft_eq]
        have e0 : n / 2 ^ 0 % 2 ^ 8 % 2 ^ 32 * 2 ^ 0 % 2 ^ 32 = n % 2 ^ 8 := by omega
        have e1 : n / 2 ^ 8 % 2 ^ 8 % 2 ^ 32 * 2 ^ 8 % 2 ^ 32
            = (n / 2 ^ 8 % 2 ^ 8) <<< 8 := by rw [Nat.shiftLeft_eq]; omega
        have e2 : n / 2 ^ 16 % 2 ^ 8 % 2 ^ 32 * 2 ^ 16 % 2 ^ 32
            = (n / 2 ^ 16 % 2 ^ 8) <<< 16 := by rw [Nat.shiftLeft_eq]; omega
        have e3 : n / 2 ^ 24 % 2 ^ 8 % 2 ^ 32 * 2 ^ 24 % 2 ^ 32
            = (n / 2 ^ 24 % 2 ^ 8) <<< 24 := by rw [Nat.shiftLeft_eq]; omega
        rw [e0, e1, e2, e3, or_shiftLeft_eq_add _ _ 8 (by omega),
          or_shiftLeft_eq_add _ _ 16 (by omega), or_shiftLeft_eq_add _ _ 24 (by omega)]
        congr 1
        omega
      · simp [to_u8]
      · simp [to_u8, Nat.shiftRight_eq_div_pow]
      · simp [to_u8, Nat.shiftRight_eq_div_pow]
      · simp [to_u8, Nat.shiftRight_eq_div_pow]
      · simp

/-- Witness for C18: the values `0xBEEF` and `0xDEADBEEF`. -/
theorem bytes_roundtrip_witness :
    u16_to_bytes 48879 [0, 0] = some [239, 190] ∧
    u16_from_bytes [239, 190] = some 48879 ∧
    u32_to_bytes 3735928559 [0, 0, 0, 0] = some [239, 190, 173, 222] ∧
    u32_from_bytes [239, 190, 173, 222] = some 3735928559 ∧
    (∃ out, u16_to_bytes 48879 [0, 0] = some out ∧ u16_from_bytes out = some 48879) ∧
    (∃ out, u32_to_bytes 3735928559 [0, 0, 0, 0] = some out ∧
      u32_from_bytes out = some 3735928559) := by
  obtain ⟨o1, h1, h2, -⟩ := bytes_roundtrip.1 48879 [0, 0] (by decide) (by decide)
  obtain ⟨o2, g1, g2, -⟩ := bytes_roundtrip.2 3735928559 [0, 0, 0, 0] (by decide) (by decide)
  exact ⟨by decide, by decide, by decide, by decide, ⟨o1, h1, h2⟩, ⟨o2, g1, g2⟩⟩

end Varela
